import Mathlib

/-!
Verification development for the bulk game-import endpoint of the
twincitiesscrabble repository.

The repository contains successive generations of the `functions/api/import.ts`
Cloudflare Pages function. Two of them carry the whole reconciliation engine
described in the specification:

* `src/unnamed/part_001` — normalisation, canonicalisation (`p1 <= p2` with the
  score pair swapped together), string-key deduplication, a deterministic sort,
  derivation of player / session entity lists, and a wipe-and-reload inside an
  explicit SQL `BEGIN`/`COMMIT`/`ROLLBACK` frame.  Below it is embedded as
  `v1Import` and its helpers.
* `src/unnamed/part_000` — `normalizeGames` with per-row warnings, the
  "refuse to wipe when nothing normalises" guard (`wiped: false`), a 400
  client-fault response for a non-array `games` field, and a wipe-and-reload
  without any transaction frame but with a self-play guard.  Below it is
  embedded as `v0Import` and its helpers.

Modelling conventions:

* A raw JSON field value is abstracted by `JVal`: `undef` (absent) and `jnull`
  model `undefined`/`null`; every other value is an `JsAtom` characterised by
  its JavaScript coercions: `asString` models `String(v)`, `asNum` models
  `Number(v)` (`none` for NaN/±∞, otherwise the value truncated toward zero,
  which is all the code ever observes of it after `Math.trunc`), and `truthy`
  models its boolean coercion.
* `localeCompare` is modelled as code-point lexicographic comparison on
  strings (`strCmp`), a fixed total order, which is what the specification
  assumes of the normalised-name order.
* `new Date(..)` / `Date.parse` general date parsing is host behaviour; it is
  passed in as an explicit parameter `dp : String → Option (Int × Nat × Nat)`
  returning the calendar fields (`getFullYear`, `getMonth()+1`, `getDate()`)
  or `none` when the host cannot parse the string.  Every theorem quantifies
  over `dp`.
* The SQLite/D1 store is a `Store` of four row lists plus the four
  `sqlite_sequence` counters; row ids are assigned as `seq + 1` exactly like
  AUTOINCREMENT after a wipe.  A fault schedule `Faults` decides, per executed
  statement, whether the backend fails it (with which error message).  The
  transaction-control statements themselves (`BEGIN` taking a snapshot,
  `ROLLBACK` restoring it, `COMMIT` clearing it) are modelled as honoured by
  the backend, which is the atomicity assumption the code and spec rely on;
  `BEGIN` and `COMMIT` can still be failed by the schedule.
* JavaScript `Array.prototype.sort` is required (ES2019) to be a stable sort
  consistent with the comparator; it is modelled by `List.insertionSort`,
  which is stable.  `Set`/`Map` iterate in insertion order; they are modelled
  by first-occurrence deduplication (`dedupStr`) and association lists.
-/

set_option maxRecDepth 4000

namespace TCS

/-! ### JavaScript value model -/

/-- A defined, non-null JS value, abstracted by its coercions. -/
structure JsAtom where
  asString : String
  asNum : Option Int
  truthy : Bool
deriving DecidableEq

/-- A raw JSON field value. -/
inductive JVal where
  | undef
  | jnull
  | atom (a : JsAtom)
deriving DecidableEq

/-- The coercion `String(v ?? "")`. -/
def strOfDef : JVal → String
  | .undef => ""
  | .jnull => ""
  | .atom a => a.asString

/-- Nullish coalescing `a ?? b`. -/
def jcoalesce : JVal → JVal → JVal
  | .undef, b => b
  | .jnull, b => b
  | .atom a, _ => .atom a

/-! ### String helpers -/

/-- Leading/trailing whitespace removal on the character list (`.trim()`). -/
def trimChars (cs : List Char) : List Char :=
  ((cs.dropWhile Char.isWhitespace).reverse.dropWhile Char.isWhitespace).reverse

/-- JS `String.prototype.trim`. -/
def jsTrim (s : String) : String := ⟨trimChars s.data⟩

/-- Maximal runs of non-whitespace characters, left to right. -/
def splitWordsGo : List Char → List Char → List (List Char)
  | [], acc => if acc.isEmpty then [] else [acc.reverse]
  | c :: cs, acc =>
    if c.isWhitespace then
      if acc.isEmpty then splitWordsGo cs [] else acc.reverse :: splitWordsGo cs []
    else splitWordsGo cs (c :: acc)

def splitWords (cs : List Char) : List (List Char) := splitWordsGo cs []

def wsJoin : List (List Char) → List Char
  | [] => []
  | [w] => w
  | w :: ws => w ++ ' ' :: wsJoin ws

/-- The normaliser `String(s ?? "").trim().replace(/\s+/g, " ")` — trim, then collapse each
internal whitespace run to a single space (part_001 `normName`,
part_000 `normalizeName`). -/
def normNameStr (s : String) : String := ⟨wsJoin (splitWords s.data)⟩

def normName (v : JVal) : String := normNameStr (strOfDef v)

/-- The regex `/^\d{4}-\d{2}-\d{2}$/`. -/
def isIsoShape (s : String) : Bool :=
  match s.data with
  | [y1, y2, y3, y4, h1, m1, m2, h2, d1, d2] =>
    y1.isDigit && y2.isDigit && y3.isDigit && y4.isDigit &&
    h1 == '-' && m1.isDigit && m2.isDigit && h2 == '-' && d1.isDigit && d2.isDigit
  | _ => false

/-- Padding `String(n).padStart(2, "0")` for the natural calendar fields. -/
def pad2 (n : Nat) : String := if n < 10 then "0" ++ toString n else toString n

/-- Code-point string comparison standing in for `localeCompare`:
negative / zero / positive.  It compares the character lists, which agrees
with the string order (`String.lt_iff_toList_lt`) while staying computable
by the kernel. -/
def strCmp (a b : String) : Int := if a.data < b.data then -1 else if b.data < a.data then 1 else 0

/-- JS `split(sep)` for a single-character separator. -/
def splitOnCharGo (sep : Char) : List Char → List Char → List (List Char)
  | [], acc => [acc.reverse]
  | c :: cs, acc =>
    if c == sep then acc.reverse :: splitOnCharGo sep cs []
    else splitOnCharGo sep cs (c :: acc)

def splitOnCharTop (sep : Char) (s : String) : List String :=
  (splitOnCharGo sep s.data []).map fun cs => ⟨cs⟩

/-- Destructuring `const [x, y] = key.split(sep)` — the first two parts. -/
def splitPairChar (sep : Char) (s : String) : String × String :=
  let ps := splitOnCharTop sep s
  (ps.getD 0 "", ps.getD 1 "")

def startsWithChars : List Char → List Char → Bool
  | [], _ => true
  | _ :: _, [] => false
  | p :: ps, c :: cs => p == c && startsWithChars ps cs

/-- JS `split(sep)` for a multi-character separator, with explicit fuel. -/
def splitSeqGo (sep : List Char) : Nat → List Char → List Char → List (List Char)
  | 0, cs, acc => [(acc.reverse ++ cs)]
  | _ + 1, [], acc => [acc.reverse]
  | fuel + 1, c :: cs, acc =>
    if startsWithChars sep (c :: cs) then
      acc.reverse :: splitSeqGo sep fuel ((c :: cs).drop sep.length) []
    else splitSeqGo sep fuel cs (c :: acc)

def splitSeqTop (sep : String) (s : String) : List String :=
  (splitSeqGo sep.data (s.data.length + 1) s.data []).map fun cs => ⟨cs⟩

/-- Destructuring `const [x, y] = key.split("||")`. -/
def splitPairSeq (sep : String) (s : String) : String × String :=
  let ps := splitSeqTop sep s
  (ps.getD 0 "", ps.getD 1 "")

/-! ### part_001 field normalisation (lines 28-49) -/

/-- part_001 `normDate` (lines 33-44): keep a `yyyy-mm-dd`-shaped string as
is, otherwise ask the host date parser and reformat; `""` marks failure. -/
def normDate (dp : String → Option (Int × Nat × Nat)) (v : JVal) : String :=
  let str := jsTrim (strOfDef v)
  if isIsoShape str then str
  else
    match dp str with
    | none => ""
    | some (y, m, d) => toString y ++ "-" ++ pad2 m ++ "-" ++ pad2 d

/-- part_001 `toInt` (lines 46-49): `Number(v)` truncated toward zero, `none`
for non-finite.  `Number(undefined)` is NaN, `Number(null)` is `0`. -/
def toInt : JVal → Option Int
  | .undef => none
  | .jnull => some 0
  | .atom a => a.asNum

/-! ### Raw and canonical records -/

/-- One element of the request's `games` array, restricted to the fields any
generation of the importer reads.  `round_number` (read only by part_000 as
`Number.isFinite(g.round_number) ? Number(g.round_number) : NaN`) is modelled
already truncated; the TS truncates only after its positivity test, so a
fractional hint in (0,1) differs — no claim depends on fractional hints. -/
structure RawGame where
  date : JVal := .undef
  session_date : JVal := .undef
  location : JVal := .undef
  round_number : Option Int := none
  player : JVal := .undef
  opponent : JVal := .undef
  player_name : JVal := .undef
  opponent_name : JVal := .undef
  my_score : JVal := .undef
  opp_score : JVal := .undef
  player_score : JVal := .undef
  opponent_score : JVal := .undef
  game_no : JVal := .undef
deriving DecidableEq

/-- A record after part_001's field normalisation, before the perspective
swap: `ps`/`osc` are the reporter's and the opponent's scores. -/
structure NormRec where
  date : String
  location : String
  player : String
  opponent : String
  ps : Int
  osc : Int
  hint : Option Int
deriving DecidableEq

/-- part_001 `CanonGame`. -/
structure CanonGame where
  date : String
  location : String
  p1 : String
  p2 : String
  s1 : Int
  s2 : Int
  game_no : Option Int
deriving DecidableEq

/-- part_001 lines 63-77: normalise one raw record; `none` when the row is a
placeholder / incomplete and is skipped. -/
def normRecOf (dp : String → Option (Int × Nat × Nat)) (g : RawGame) : Option NormRec :=
  let date := normDate dp g.date
  let location := if normName g.location = "" then "Unknown" else normName g.location
  let player := normName g.player
  let opponent := normName g.opponent
  if date = "" ∨ player = "" ∨ opponent = "" then none
  else
    match toInt g.my_score, toInt g.opp_score with
    | some ms, some os => some ⟨date, location, player, opponent, ms, os, toInt g.game_no⟩
    | _, _ => none

/-- part_001 lines 79-92: order the name pair, swapping the score pair with
it (`if (p2.localeCompare(p1) < 0) { [p1,p2]=[p2,p1]; [s1,s2]=[s2,s1] }`). -/
def canonicalize (r : NormRec) : CanonGame :=
  if strCmp r.opponent r.player < 0 then
    ⟨r.date, r.location, r.opponent, r.player, r.osc, r.ps, r.hint⟩
  else
    ⟨r.date, r.location, r.player, r.opponent, r.ps, r.osc, r.hint⟩

/-- part_001 lines 62-93: the `candidates` array. -/
def candidatesOf (dp : String → Option (Int × Nat × Nat)) (raws : List RawGame) :
    List CanonGame :=
  raws.filterMap fun g => (normRecOf dp g).map canonicalize

/-! ### part_001 deduplication (lines 95-105) -/

/-- The dedup key string `date|location|p1|p2|s1|s2`. -/
def dedupKey (g : CanonGame) : String :=
  g.date ++ "|" ++ g.location ++ "|" ++ g.p1 ++ "|" ++ g.p2 ++ "|" ++
    toString g.s1 ++ "|" ++ toString g.s2

/-- Keep the first occurrence of each key (`seen` is the JS `Set`). -/
def dedupGo (seen : List String) : List CanonGame → List CanonGame
  | [] => []
  | g :: rest =>
    if dedupKey g ∈ seen then dedupGo seen rest
    else g :: dedupGo (dedupKey g :: seen) rest

def dedupGames (l : List CanonGame) : List CanonGame := dedupGo [] l

/-- First-occurrence deduplication of a string list (JS `Array.from(new Set(..))`). -/
def dedupStrGo (seen : List String) : List String → List String
  | [] => []
  | s :: rest =>
    if s ∈ seen then dedupStrGo seen rest
    else s :: dedupStrGo (s :: seen) rest

def dedupStr (l : List String) : List String := dedupStrGo [] l

/-! ### part_001 deterministic sort (lines 107-122) -/

/-- The hint rank `a.game_no ?? 1e9`. -/
def hintRank (g : CanonGame) : Int := g.game_no.getD 1000000000

/-- part_001's comparator, literally: date, location, hint rank, `p1`, `p2`,
`s1`, `s2`. -/
def cmpGame (a b : CanonGame) : Int :=
  if a.date ≠ b.date then strCmp a.date b.date
  else if a.location ≠ b.location then strCmp a.location b.location
  else if hintRank a ≠ hintRank b then hintRank a - hintRank b
  else if strCmp a.p1 b.p1 ≠ 0 then strCmp a.p1 b.p1
  else if strCmp a.p2 b.p2 ≠ 0 then strCmp a.p2 b.p2
  else if a.s1 ≠ b.s1 then a.s1 - b.s1
  else a.s2 - b.s2

def gameLE (a b : CanonGame) : Prop := cmpGame a b ≤ 0

def gameLT (a b : CanonGame) : Prop := cmpGame a b < 0

instance : DecidableRel gameLE := fun _ _ => inferInstanceAs (Decidable (_ ≤ _))

instance : DecidableRel gameLT := fun _ _ => inferInstanceAs (Decidable (_ < _))

/-- The JS stable sort with part_001's comparator. -/
def sortGames (l : List CanonGame) : List CanonGame := List.insertionSort gameLE l

/-! ### part_001 entity derivation (lines 124-131) -/

def nameLE (a b : String) : Prop := strCmp a b ≤ 0

instance : DecidableRel nameLE := fun _ _ => inferInstanceAs (Decidable (_ ≤ _))

/-- part_001 lines 125-127: distinct non-empty player names, sorted. -/
def playerNamesOf (games : List CanonGame) : List String :=
  List.insertionSort nameLE
    (dedupStr ((games.flatMap fun g => [g.p1, g.p2]).filter fun s => !(s == "")))

def sessionKeyOf (g : CanonGame) : String := g.date ++ "|" ++ g.location

/-- part_001 lines 129-131: distinct `date|location` keys, sorted. -/
def sessionKeysOf (games : List CanonGame) : List String :=
  List.insertionSort nameLE (dedupStr (games.map sessionKeyOf))

/-! ### The relational store -/

structure PlayerRow where
  id : Nat
  name : String
deriving DecidableEq

structure SessionRow where
  id : Nat
  session_date : String
  location : Option String
deriving DecidableEq

structure RoundRow where
  id : Nat
  session_id : Nat
  round_number : Nat
deriving DecidableEq

structure GameRow where
  id : Nat
  round_id : Nat
  player1_id : Nat
  player2_id : Nat
  player1_score : Int
  player2_score : Int
deriving DecidableEq

/-- The four tables plus their `sqlite_sequence` AUTOINCREMENT counters. -/
structure Store where
  players : List PlayerRow
  sessions : List SessionRow
  rounds : List RoundRow
  games : List GameRow
  pSeq : Nat
  sSeq : Nat
  rSeq : Nat
  gSeq : Nat
deriving DecidableEq

def emptyStore : Store := ⟨[], [], [], [], 0, 0, 0, 0⟩

/-- Connection state: current store, the snapshot taken by `BEGIN` (if a
transaction is open), and the index of the next statement to execute. -/
structure Db where
  store : Store
  snap : Option Store
  idx : Nat
deriving DecidableEq

/-- Backend fault schedule: which statement executions fail, and with what
error message. -/
structure Faults where
  failAt : Nat → Option String

def noFaults : Faults := ⟨fun _ => none⟩

def bumpIdx (db : Db) : Db := { db with idx := db.idx + 1 }

/-- Execute one ordinary statement: fail according to the schedule, otherwise
apply its effect to the store. -/
def dbOp (f : Faults) (db : Db) (upd : Store → Store) : Except (String × Db) Db :=
  match f.failAt db.idx with
  | some e => .error (e, bumpIdx db)
  | none => .ok { bumpIdx db with store := upd db.store }

/-- SQL `BEGIN`: take the transaction snapshot. -/
def beginStep (f : Faults) (db : Db) : Except (String × Db) Db :=
  match f.failAt db.idx with
  | some e => .error (e, bumpIdx db)
  | none => .ok { bumpIdx db with snap := some db.store }

/-- SQL `COMMIT`: clear the snapshot, making the writes durable. -/
def commitStep (f : Faults) (db : Db) : Except (String × Db) Db :=
  match f.failAt db.idx with
  | some e => .error (e, bumpIdx db)
  | none => .ok { bumpIdx db with snap := none }

/-- The best-effort `DELETE FROM sqlite_sequence ...` inside its own
`try { } catch {}`: a failure is swallowed. -/
def seqResetStep (f : Faults) (db : Db) : Db :=
  match f.failAt db.idx with
  | some _ => bumpIdx db
  | none =>
    { bumpIdx db with store := { db.store with pSeq := 0, sSeq := 0, rSeq := 0, gSeq := 0 } }

/-- An insert statement returning the new row id (`RETURNING id`, or the
insert-then-select fallback; in this store model both resolve to
`seq + 1`). -/
def insStep (f : Faults) (db : Db) (idOf : Store → Nat) (app : Store → Nat → Store) :
    Except (String × Db) (Nat × Db) :=
  match f.failAt db.idx with
  | some e => .error (e, bumpIdx db)
  | none =>
    let id := idOf db.store
    .ok (id, { bumpIdx db with store := app db.store id })

/-! ### Association lists (JS `Map`) -/

def assocGet : List (String × Nat) → String → Option Nat
  | [], _ => none
  | p :: rest, k => if p.1 = k then some p.2 else assocGet rest k

def assocSet : List (String × Nat) → String → Nat → List (String × Nat)
  | [], k, v => [(k, v)]
  | p :: rest, k, v => if p.1 = k then (k, v) :: rest else p :: assocSet rest k v

/-- The map an insert loop builds: each key bound to `start + position + 1`. -/
def enumMap : List String → Nat → List (String × Nat)
  | [], _ => []
  | k :: rest, s => (k, s + 1) :: enumMap rest (s + 1)

/-! ### part_001 transactional loader (lines 133-252) -/

/-- Insert players in order (lines 152-172), building `playerIdByName`. -/
def v1InsertPlayers (f : Faults) :
    List String → List (String × Nat) → Db → Except (String × Db) (List (String × Nat) × Db)
  | [], m, db => .ok (m, db)
  | n :: rest, m, db =>
    match insStep f db (fun s => s.pSeq + 1)
        (fun s id => { s with players := s.players ++ [⟨id, n⟩], pSeq := id }) with
    | .error e => .error e
    | .ok (id, db1) =>
      if id = 0 then .error ("Failed to insert/find player id for: " ++ n, db1)
      else v1InsertPlayers f rest (m ++ [(n, id)]) db1

/-- Insert sessions in order (lines 174-198); the key is split back on `"|"`
(`const [date, location] = key.split("|")`). -/
def v1InsertSessions (f : Faults) :
    List String → List (String × Nat) → Db → Except (String × Db) (List (String × Nat) × Db)
  | [], m, db => .ok (m, db)
  | key :: rest, m, db =>
    match insStep f db (fun s => s.sSeq + 1)
        (fun s id => { s with sessions := s.sessions ++ [⟨id, (splitPairChar '|' key).1, some (splitPairChar '|' key).2⟩], sSeq := id }) with
    | .error e => .error e
    | .ok (id, db1) =>
      if id = 0 then .error ("Failed to insert/find session id for: " ++ key, db1)
      else v1InsertSessions f rest (m ++ [(key, id)]) db1

/-- Walk the sorted record list (lines 200-250): per-session round counter,
round insert, then game insert. -/
def v1GamesLoop (f : Faults) (pmap smap : List (String × Nat)) :
    List CanonGame → List (String × Nat) → Nat → Nat → Db →
      Except (String × Db) (Nat × Nat × Db)
  | [], _, rc, gc, db => .ok (rc, gc, db)
  | g :: rest, rcounts, rc, gc, db =>
    if (assocGet smap (sessionKeyOf g)).getD 0 = 0 then
      .error ("Missing session for " ++ sessionKeyOf g, db)
    else
      match insStep f db (fun s => s.rSeq + 1)
          (fun s id => { s with rounds := s.rounds ++ [⟨id, (assocGet smap (sessionKeyOf g)).getD 0, (assocGet rcounts (sessionKeyOf g)).getD 0 + 1⟩], rSeq := id }) with
      | .error e => .error e
      | .ok (roundId, db1) =>
        if roundId = 0 then
          .error ("Failed to insert/find round id for session " ++ sessionKeyOf g ++ " round " ++
            toString ((assocGet rcounts (sessionKeyOf g)).getD 0 + 1), db1)
        else
          if (assocGet pmap g.p1).getD 0 = 0 ∨ (assocGet pmap g.p2).getD 0 = 0 then
            .error ("Missing player id(s) for game: " ++ g.p1 ++ " vs " ++ g.p2, db1)
          else
            match dbOp f db1 (fun s =>
                { s with games := s.games ++ [⟨s.gSeq + 1, roundId, (assocGet pmap g.p1).getD 0, (assocGet pmap g.p2).getD 0, g.s1, g.s2⟩], gSeq := s.gSeq + 1 }) with
            | .error e => .error e
            | .ok db2 =>
              v1GamesLoop f pmap smap rest
                (assocSet rcounts (sessionKeyOf g) ((assocGet rcounts (sessionKeyOf g)).getD 0 + 1))
                (rc + 1) (gc + 1) db2

/-- The whole `try` block of part_001 (lines 138-252): `BEGIN`, wipe in
dependency order, best-effort sequence reset, inserts, `COMMIT`. -/
def loaderRun (f : Faults) (games : List CanonGame) (pn sk : List String) (pre : Store) :
    Except (String × Db) (Nat × Nat × Db) := do
  let db ← beginStep f ⟨pre, none, 0⟩
  let db ← dbOp f db fun s => { s with games := [] }
  let db ← dbOp f db fun s => { s with rounds := [] }
  let db ← dbOp f db fun s => { s with sessions := [] }
  let db ← dbOp f db fun s => { s with players := [] }
  let db := seqResetStep f db
  let r ← v1InsertPlayers f pn [] db
  let r2 ← v1InsertSessions f sk [] r.2
  let r3 ← v1GamesLoop f r.1 r2.1 games [] 0 0 r2.2
  let db ← commitStep f r3.2.2
  pure (r3.1, r3.2.1, db)

/-- The parsed request body's `games` field. -/
inductive GamesField where
  | absent
  | nonArray
  | arr (xs : List RawGame)
deriving DecidableEq

/-- part_001's possible JSON responses (after auth and JSON parsing). -/
inductive V1Response where
  | okEmpty
  | success (received normalized deduped players sessions rounds games : Nat)
  | failure (error : String)
deriving DecidableEq

/-- The HTTP status part_001 attaches to each response. -/
def V1Response.statusOf : V1Response → Nat
  | .failure _ => 500
  | _ => 200

/-- The sorted deduplicated canonical record list for a request. -/
def v1Games (dp : String → Option (Int × Nat × Nat)) (xs : List RawGame) : List CanonGame :=
  sortGames (dedupGames (candidatesOf dp xs))

/-- part_001 `onRequestPost` after auth and JSON parsing: non-array `games`
is coerced to `[]` (line 20); an empty array short-circuits (lines 21-25);
otherwise normalise, canonicalise, dedup, sort, derive entities and run the
transactional loader; the `catch` issues `ROLLBACK` (restoring the `BEGIN`
snapshot when one exists) and answers 500 with the error message. -/
def v1Import (dp : String → Option (Int × Nat × Nat)) (f : Faults) (b : GamesField)
    (pre : Store) : V1Response × Store :=
  let rawGames : List RawGame := match b with | .arr xs => xs | _ => []
  if rawGames.length = 0 then (.okEmpty, pre)
  else
    let cands := candidatesOf dp rawGames
    let games := sortGames (dedupGames cands)
    let pn := playerNamesOf games
    let sk := sessionKeysOf games
    match loaderRun f games pn sk pre with
    | .ok (rc, gc, db) =>
      (.success rawGames.length cands.length games.length pn.length sk.length rc gc, db.store)
    | .error (e, db) => (.failure e, (db.snap.getD db.store))

/-! ### Closed form of a fault-free part_001 load -/

def playerRowsOf : List String → Nat → List PlayerRow
  | [], _ => []
  | n :: rest, s => ⟨s + 1, n⟩ :: playerRowsOf rest (s + 1)

def sessionRowsOf : List String → Nat → List SessionRow
  | [], _ => []
  | k :: rest, s =>
    ⟨s + 1, (splitPairChar '|' k).1, some (splitPairChar '|' k).2⟩ :: sessionRowsOf rest (s + 1)

/-- The rounds and games a fault-free walk of the record list inserts. -/
def pureLoad (pmap smap : List (String × Nat)) :
    List (String × Nat) → Nat → Nat → List CanonGame → List RoundRow × List GameRow
  | _, _, _, [] => ([], [])
  | rcounts, rSeq, gSeq, g :: rest =>
    let sKey := sessionKeyOf g
    let sid := (assocGet smap sKey).getD 0
    let n := (assocGet rcounts sKey).getD 0 + 1
    let pr := pureLoad pmap smap (assocSet rcounts sKey n) (rSeq + 1) (gSeq + 1) rest
    (⟨rSeq + 1, sid, n⟩ :: pr.1,
     ⟨gSeq + 1, rSeq + 1, (assocGet pmap g.p1).getD 0, (assocGet pmap g.p2).getD 0,
       g.s1, g.s2⟩ :: pr.2)

/-- The store a fault-free part_001 import leaves behind. -/
def loadedStore (games : List CanonGame) (pn sk : List String) : Store :=
  { players := playerRowsOf pn 0
    sessions := sessionRowsOf sk 0
    rounds := (pureLoad (enumMap pn 0) (enumMap sk 0) [] 0 0 games).1
    games := (pureLoad (enumMap pn 0) (enumMap sk 0) [] 0 0 games).2
    pSeq := pn.length
    sSeq := sk.length
    rSeq := games.length
    gSeq := games.length }

/-! ### part_000 field normalisation (lines 57-96) -/

/-- part_000 `parseScore`: `null`/`undefined`/`""` give `null`, otherwise the
number coercion truncated toward zero (`none` for non-finite). -/
def parseScore : JVal → Option Int
  | .undef => none
  | .jnull => none
  | .atom a => if a.asString = "" then none else a.asNum

def allDigits (cs : List Char) : Bool := cs.all Char.isDigit

/-- Padding `padStart(2, "0")` on a digit string. -/
def pad2Str (s : String) : String := if s.length < 2 then "0" ++ s else s

/-- The regex `/^(\d{1,2})\/(\d{1,2})\/(\d{4})$/` branch of `toISODate`. -/
def parseMDY (s : String) : Option String :=
  match splitOnCharTop '/' s with
  | [m, d, y] =>
    if allDigits m.data && (m.length == 1 || m.length == 2) &&
        allDigits d.data && (d.length == 1 || d.length == 2) &&
        allDigits y.data && y.length == 4 then
      some (y ++ "-" ++ pad2Str m ++ "-" ++ pad2Str d)
    else none
  | _ => none

/-- part_000 `toISODate` (lines 70-96): `null` for `null`/`undefined`/blank,
an ISO-shaped string unchanged, then `m/d/yyyy`, then the host parser. -/
def toISODate (dp : String → Option (Int × Nat × Nat)) : JVal → Option String
  | .undef => none
  | .jnull => none
  | .atom a =>
    let v := jsTrim a.asString
    if v = "" then none
    else if isIsoShape v then some v
    else
      match parseMDY v with
      | some r => some r
      | none =>
        match dp v with
        | none => none
        | some (y, m, d) => some (toString y ++ "-" ++ pad2 m ++ "-" ++ pad2 d)

/-- part_000 `NormalizedGame`. -/
structure NormalizedGame where
  session_date : String
  location : Option String
  round_number : Int
  player_name : String
  opponent_name : String
  player_score : Int
  opponent_score : Int
deriving DecidableEq

/-- The per-session counter key of part_000, `` `${date}||${location ?? ""}` ``. -/
def v0CounterKey (session_date : String) (location : Option String) : String :=
  session_date ++ "||" ++ location.getD ""

/-- part_000 `normalizeGames` (lines 98-163): normalise row `i`, skipping
placeholders with a warning, and assign `round_number` from the input field
when positive, else from a per-`(date, location)` counter. -/
def normalizeGamesGo (dp : String → Option (Int × Nat × Nat)) :
    Nat → List (String × Nat) → List RawGame → List NormalizedGame × List String
  | _, _, [] => ([], [])
  | i, counters, g :: rest =>
    let session_date := match toISODate dp g.date with
      | some s => some s
      | none => toISODate dp g.session_date
    let location : Option String := match g.location with
      | .atom a => if a.truthy then some (jsTrim a.asString) else none
      | _ => none
    let player_name := normName (jcoalesce g.player g.player_name)
    let opponent_name := normName (jcoalesce g.opponent g.opponent_name)
    let player_score := parseScore (jcoalesce g.my_score g.player_score)
    let opponent_score := parseScore (jcoalesce g.opp_score g.opponent_score)
    if player_score = none ∨ opponent_score = none then
      let r := normalizeGamesGo dp (i + 1) counters rest
      (r.1, ("Row " ++ toString i ++ ": skipped (missing score)") :: r.2)
    else if session_date = none then
      let r := normalizeGamesGo dp (i + 1) counters rest
      (r.1, ("Row " ++ toString i ++ ": skipped (missing/invalid date)") :: r.2)
    else if player_name = "" ∨ opponent_name = "" then
      let r := normalizeGamesGo dp (i + 1) counters rest
      (r.1, ("Row " ++ toString i ++ ": skipped (missing player/opponent name)") :: r.2)
    else
      let sd := session_date.getD ""
      match g.round_number with
      | some rn =>
        if rn ≤ 0 then
          let key := v0CounterKey sd location
          let next := (assocGet counters key).getD 0 + 1
          let r := normalizeGamesGo dp (i + 1) (assocSet counters key next) rest
          (⟨sd, location, Int.ofNat next, player_name, opponent_name,
            (player_score.getD 0), (opponent_score.getD 0)⟩ :: r.1, r.2)
        else
          let r := normalizeGamesGo dp (i + 1) counters rest
          (⟨sd, location, rn, player_name, opponent_name,
            (player_score.getD 0), (opponent_score.getD 0)⟩ :: r.1, r.2)
      | none =>
        let key := v0CounterKey sd location
        let next := (assocGet counters key).getD 0 + 1
        let r := normalizeGamesGo dp (i + 1) (assocSet counters key next) rest
        (⟨sd, location, Int.ofNat next, player_name, opponent_name,
          (player_score.getD 0), (opponent_score.getD 0)⟩ :: r.1, r.2)

def normalizeGames (dp : String → Option (Int × Nat × Nat)) (raws : List RawGame) :
    List NormalizedGame × List String :=
  normalizeGamesGo dp 0 [] raws

/-! ### part_000 loader (lines 203-345, no transaction frame) -/

def v0SessionKey (g : NormalizedGame) : String :=
  g.session_date ++ "||" ++ g.location.getD ""

/-- Lines 224-231: names in `Set` insertion order, then sorted. -/
def v0SortedNames (gs : List NormalizedGame) : List String :=
  List.insertionSort nameLE
    (dedupStr (gs.flatMap fun g => [g.player_name, g.opponent_name]))

def v0SortedSessionKeys (gs : List NormalizedGame) : List String :=
  List.insertionSort nameLE (dedupStr (gs.map v0SessionKey))

/-- Lines 233-243: insert players, `meta.last_row_id` as the id. -/
def v0InsertPlayers (f : Faults) :
    List String → List (String × Nat) → Db → Except (String × Db) (List (String × Nat) × Db)
  | [], m, db => .ok (m, db)
  | n :: rest, m, db =>
    match insStep f db (fun s => s.pSeq + 1)
        (fun s id => { s with players := s.players ++ [⟨id, n⟩], pSeq := id }) with
    | .error e => .error e
    | .ok (id, db1) =>
      if id = 0 then .error ("Failed inserting player: " ++ n, db1)
      else v0InsertPlayers f rest (m ++ [(n, id)]) db1

/-- Lines 256-268: split the key on `"||"`; an empty location part becomes
SQL `NULL`. -/
def v0InsertSessions (f : Faults) :
    List String → List (String × Nat) → Db → Except (String × Db) (List (String × Nat) × Db)
  | [], m, db => .ok (m, db)
  | key :: rest, m, db =>
    let p := splitPairSeq "||" key
    let location : Option String := if p.2 = "" then none else some p.2
    match insStep f db (fun s => s.sSeq + 1)
        (fun s id => { s with sessions := s.sessions ++ [⟨id, p.1, location⟩], sSeq := id }) with
    | .error e => .error e
    | .ok (id, db1) =>
      if id = 0 then .error ("Failed inserting session: " ++ key, db1)
      else v0InsertSessions f rest (m ++ [(key, id)]) db1

/-- Lines 274-280: build the round key set, resolving session ids first. -/
def v0RoundKeys (smap : List (String × Nat)) : List NormalizedGame → Except String (List String)
  | [] => .ok []
  | g :: rest =>
    let sessionKey := v0SessionKey g
    let session_id := (assocGet smap sessionKey).getD 0
    if session_id = 0 then .error ("Missing session_id for " ++ sessionKey)
    else
      match v0RoundKeys smap rest with
      | .error e => .error e
      | .ok ks => .ok ((toString session_id ++ "||" ++ toString g.round_number) :: ks)

/-- Lines 284-297: insert rounds from the lexicographically sorted key
strings, parsing the two numbers back out of each key. -/
def v0InsertRounds (f : Faults) :
    List String → List (String × Nat) → Db → Except (String × Db) (List (String × Nat) × Db)
  | [], m, db => .ok (m, db)
  | rkey :: rest, m, db =>
    let p := splitPairSeq "||" rkey
    let session_id := (p.1.toNat?).getD 0
    let round_number := (p.2.toNat?).getD 0
    match insStep f db (fun s => s.rSeq + 1)
        (fun s id =>
          { s with rounds := s.rounds ++ [⟨id, session_id, round_number⟩], rSeq := id }) with
    | .error e => .error e
    | .ok (id, db1) =>
      if id = 0 then .error ("Failed inserting round: " ++ rkey, db1)
      else v0InsertRounds f rest (m ++ [(rkey, id)]) db1

/-- Lines 300-325: insert games, skipping self-play with a warning. -/
def v0GamesLoop (f : Faults) (pmap smap rmap : List (String × Nat)) :
    List NormalizedGame → List String → Nat → Db →
      Except (String × Db) (Nat × List String × Db)
  | [], warnings, n, db => .ok (n, warnings, db)
  | g :: rest, warnings, n, db =>
    let sessionKey := v0SessionKey g
    let session_id := (assocGet smap sessionKey).getD 0
    let round_id := (assocGet rmap (toString session_id ++ "||" ++ toString g.round_number)).getD 0
    let player1_id := (assocGet pmap g.player_name).getD 0
    let player2_id := (assocGet pmap g.opponent_name).getD 0
    if player1_id = player2_id then
      v0GamesLoop f pmap smap rmap rest
        (warnings ++ ["Skipped game: " ++ g.player_name ++ " vs itself on " ++ g.session_date])
        n db
    else
      match dbOp f db (fun s =>
          { s with
            games := s.games ++ [⟨s.gSeq + 1, round_id, player1_id, player2_id, g.player_score, g.opponent_score⟩]
            gSeq := s.gSeq + 1 }) with
      | .error e => .error e
      | .ok db1 => v0GamesLoop f pmap smap rmap rest warnings (n + 1) db1

structure V0Counts where
  players : Nat
  sessions : Nat
  rounds : Nat
  games : Nat
deriving DecidableEq

/-- The whole `try` block of part_000 (lines 206-339): wipe, best-effort
sequence reset, then the four insert phases — with no `BEGIN`/`COMMIT`. -/
def v0Load (f : Faults) (gs : List NormalizedGame) (warnings : List String) (db : Db) :
    Except (String × Db) (V0Counts × List String × Db) := do
  let db ← dbOp f db fun s => { s with games := [] }
  let db ← dbOp f db fun s => { s with rounds := [] }
  let db ← dbOp f db fun s => { s with sessions := [] }
  let db ← dbOp f db fun s => { s with players := [] }
  let db := seqResetStep f db
  let sortedNames := v0SortedNames gs
  let r ← v0InsertPlayers f sortedNames [] db
  let sortedSessionKeys := v0SortedSessionKeys gs
  let r2 ← v0InsertSessions f sortedSessionKeys [] r.2
  let rkeys ← match v0RoundKeys r2.1 gs with
    | .error e => .error (e, r2.2)
    | .ok ks => pure ks
  let sortedRoundKeys := List.insertionSort nameLE (dedupStr rkeys)
  let r3 ← v0InsertRounds f sortedRoundKeys [] r2.2
  let r4 ← v0GamesLoop f r.1 r2.1 r3.1 gs warnings 0 r3.2
  pure (⟨sortedNames.length, sortedSessionKeys.length, sortedRoundKeys.length, r4.1⟩,
    r4.2.1, r4.2.2)

/-- part_000's possible JSON responses (after auth and JSON parsing). -/
inductive V0Response where
  | badRequest (error : String)
  | noopGuard (received : Nat) (wiped : Bool) (message : String) (warnings : List String)
  | success (received normalized : Nat) (wiped : Bool)
      (players sessions rounds games : Nat) (warnings : List String)
  | failure (error : String)
deriving DecidableEq

/-- The HTTP status part_000 attaches to each response. -/
def V0Response.statusOf : V0Response → Nat
  | .badRequest _ => 400
  | .failure _ => 500
  | _ => 200

/-- part_000 `onRequestPost` after auth and JSON parsing (lines 184-345):
reject a non-array `games` with a 400, refuse to touch the store when
nothing survives normalisation (`wiped: false`), otherwise wipe and reload
without a transaction — a mid-load failure answers 500 and leaves whatever
was already written. -/
def v0Import (dp : String → Option (Int × Nat × Nat)) (f : Faults) (b : GamesField)
    (pre : Store) : V0Response × Store :=
  match b with
  | .arr raws =>
    let r := normalizeGames dp raws
    if r.1.length = 0 then
      (.noopGuard raws.length false
        "No valid games after normalization; did not modify database." r.2, pre)
    else
      match v0Load f r.1 r.2 ⟨pre, none, 0⟩ with
      | .ok (counts, warnings, db) =>
        (.success raws.length r.1.length true
          counts.players counts.sessions counts.rounds counts.games warnings, db.store)
      | .error (e, db) => (.failure e, db.store)
  | _ => (.badRequest "Body must be \x7b games: [...] \x7d", pre)

/-! ### Properties of the comparison helpers -/

theorem strData_lt_iff (a b : String) : a.data < b.data ↔ a < b := by
  rw [String.lt_iff_toList_lt]
  rfl

theorem strCmp_neg_iff (a b : String) : strCmp a b < 0 ↔ a < b := by
  unfold strCmp
  split_ifs with h1 h2
  · norm_num [(strData_lt_iff a b).mp h1]
  · norm_num [lt_asymm ((strData_lt_iff b a).mp h2)]
  · norm_num [(strData_lt_iff a b).not.mp h1]

theorem strCmp_eq_zero_iff (a b : String) : strCmp a b = 0 ↔ a = b := by
  unfold strCmp
  split_ifs with h1 h2
  · norm_num [ne_of_lt ((strData_lt_iff a b).mp h1)]
  · norm_num [(ne_of_lt ((strData_lt_iff b a).mp h2)).symm]
  · norm_num [le_antisymm (le_of_not_lt ((strData_lt_iff b a).not.mp h2))
      (le_of_not_lt ((strData_lt_iff a b).not.mp h1))]

@[simp] theorem strCmp_self (a : String) : strCmp a a = 0 := by
  simp [strCmp]

theorem strCmp_le_iff (a b : String) : strCmp a b ≤ 0 ↔ a ≤ b := by
  rw [Int.le_iff_lt_or_eq, strCmp_neg_iff, strCmp_eq_zero_iff, le_iff_lt_or_eq]

theorem nameLE_iff (a b : String) : nameLE a b ↔ a ≤ b := strCmp_le_iff a b

instance : IsTotal String nameLE :=
  ⟨fun a b => by rw [nameLE_iff, nameLE_iff]; exact le_total a b⟩

instance : IsTrans String nameLE :=
  ⟨fun a b c hab hbc => by
    rw [nameLE_iff] at hab hbc ⊢
    exact le_trans hab hbc⟩

/-- The comparator's sort key: `(date, location, hint rank, p1, p2, s1, s2)`
in lexicographic order. -/
abbrev SKey : Type :=
  String ×ₗ (String ×ₗ (Int ×ₗ (String ×ₗ (String ×ₗ (Int ×ₗ Int)))))

def sortKey (g : CanonGame) : SKey :=
  toLex (g.date, toLex (g.location, toLex (hintRank g,
    toLex (g.p1, toLex (g.p2, toLex (g.s1, g.s2))))))

theorem cmpGame_lt_iff (a b : CanonGame) : cmpGame a b < 0 ↔ sortKey a < sortKey b := by
  simp only [cmpGame, sortKey, Prod.Lex.lt_iff]
  by_cases hd : a.date = b.date
  · simp only [hd, ne_eq, not_true_eq_false, if_false, lt_self_iff_false, true_and, false_or]
    by_cases hl : a.location = b.location
    · simp only [hl, ne_eq, not_true_eq_false, if_false, lt_self_iff_false, true_and, false_or]
      by_cases hh : hintRank a = hintRank b
      · simp only [hh, ne_eq, not_true_eq_false, if_false, lt_self_iff_false, true_and, false_or]
        by_cases hp1 : a.p1 = b.p1
        · simp only [hp1, strCmp_self, ne_eq, not_true_eq_false, if_false,
            lt_self_iff_false, true_and, false_or]
          by_cases hp2 : a.p2 = b.p2
          · simp only [hp2, strCmp_self, ne_eq, not_true_eq_false, if_false,
              lt_self_iff_false, true_and, false_or]
            by_cases hs1 : a.s1 = b.s1
            · simp only [hs1, ne_eq, not_true_eq_false, if_false, lt_self_iff_false,
                true_and, false_or]
              omega
            · simp only [hs1, ne_eq, not_false_eq_true, if_true, false_and, or_false]
              omega
          · simp only [hp2, ne_eq, strCmp_eq_zero_iff, not_false_eq_true, if_true,
              strCmp_neg_iff, false_and, or_false]
        · simp only [hp1, ne_eq, strCmp_eq_zero_iff, not_false_eq_true, if_true,
            strCmp_neg_iff, false_and, or_false]
      · simp only [hh, ne_eq, not_false_eq_true, if_true, false_and, or_false]
        omega
    · simp only [hl, ne_eq, not_false_eq_true, if_true, strCmp_neg_iff, false_and, or_false]
  · simp only [hd, ne_eq, not_false_eq_true, if_true, strCmp_neg_iff, false_and, or_false]

theorem cmpGame_eq_zero_iff (a b : CanonGame) :
    cmpGame a b = 0 ↔
      a.date = b.date ∧ a.location = b.location ∧ hintRank a = hintRank b ∧
        a.p1 = b.p1 ∧ a.p2 = b.p2 ∧ a.s1 = b.s1 ∧ a.s2 = b.s2 := by
  simp only [cmpGame]
  by_cases hd : a.date = b.date
  · simp only [hd, ne_eq, not_true_eq_false, if_false, true_and]
    by_cases hl : a.location = b.location
    · simp only [hl, ne_eq, not_true_eq_false, if_false, true_and]
      by_cases hh : hintRank a = hintRank b
      · simp only [hh, ne_eq, not_true_eq_false, if_false, true_and]
        by_cases hp1 : a.p1 = b.p1
        · simp only [hp1, strCmp_self, ne_eq, not_true_eq_false, if_false, true_and]
          by_cases hp2 : a.p2 = b.p2
          · simp only [hp2, strCmp_self, ne_eq, not_true_eq_false, if_false, true_and]
            by_cases hs1 : a.s1 = b.s1
            · simp only [hs1, ne_eq, not_true_eq_false, if_false, true_and]
              omega
            · simp only [hs1, ne_eq, not_false_eq_true, if_true, false_and, iff_false]
              omega
          · simp only [hp2, ne_eq, strCmp_eq_zero_iff, not_false_eq_true, if_true,
              false_and, and_false, iff_false]
        · simp only [hp1, ne_eq, strCmp_eq_zero_iff, not_false_eq_true, if_true,
            false_and, iff_false]
      · simp only [hh, ne_eq, not_false_eq_true, if_true, false_and, iff_false]
        omega
    · simp only [hl, ne_eq, strCmp_eq_zero_iff, not_false_eq_true, if_true,
        false_and, iff_false]
  · simp only [hd, ne_eq, strCmp_eq_zero_iff, not_false_eq_true, if_true,
      false_and, iff_false]

theorem sortKey_eq_iff (a b : CanonGame) :
    sortKey a = sortKey b ↔
      a.date = b.date ∧ a.location = b.location ∧ hintRank a = hintRank b ∧
        a.p1 = b.p1 ∧ a.p2 = b.p2 ∧ a.s1 = b.s1 ∧ a.s2 = b.s2 := by
  simp [sortKey, Prod.mk.injEq, and_assoc]

theorem cmpGame_le_iff (a b : CanonGame) : cmpGame a b ≤ 0 ↔ sortKey a ≤ sortKey b := by
  rw [Int.le_iff_lt_or_eq, cmpGame_lt_iff, cmpGame_eq_zero_iff, le_iff_lt_or_eq,
    ← sortKey_eq_iff]

instance : IsTotal CanonGame gameLE :=
  ⟨fun a b => by
    unfold gameLE
    rw [cmpGame_le_iff, cmpGame_le_iff]
    exact le_total _ _⟩

instance : IsTrans CanonGame gameLE :=
  ⟨fun a b c hab hbc => by
    unfold gameLE at hab hbc ⊢
    rw [cmpGame_le_iff] at hab hbc ⊢
    exact le_trans hab hbc⟩

instance : IsAntisymm CanonGame gameLT :=
  ⟨fun a b h1 h2 => by
    unfold gameLT at h1 h2
    rw [cmpGame_lt_iff] at h1 h2
    exact absurd h2 (lt_asymm h1)⟩

/-- Equal `(date, location, p1, p2, s1, s2)` tuples give equal dedup keys. -/
theorem dedupKey_congr {a b : CanonGame} (hd : a.date = b.date) (hl : a.location = b.location)
    (hp1 : a.p1 = b.p1) (hp2 : a.p2 = b.p2) (hs1 : a.s1 = b.s1) (hs2 : a.s2 = b.s2) :
    dedupKey a = dedupKey b := by
  unfold dedupKey
  rw [hd, hl, hp1, hp2, hs1, hs2]

/-! ### Canonicalisation properties -/

/-- The perspective swap on a normalised record: names and scores swapped
together; date, location and hint untouched. -/
def swapRec (r : NormRec) : NormRec :=
  ⟨r.date, r.location, r.opponent, r.player, r.osc, r.ps, r.hint⟩

/-- The perspective swap on a raw record, for the part_001 field spellings:
`player`/`opponent` and `my_score`/`opp_score` exchanged. -/
def swapRaw (g : RawGame) : RawGame :=
  { g with player := g.opponent, opponent := g.player,
           my_score := g.opp_score, opp_score := g.my_score }

theorem canonicalize_swap {r : NormRec} (h : r.player ≠ r.opponent) :
    canonicalize (swapRec r) = canonicalize r := by
  unfold canonicalize swapRec
  by_cases h1 : strCmp r.opponent r.player < 0
  · rw [strCmp_neg_iff] at h1
    have h2 : ¬ strCmp r.player r.opponent < 0 := by
      rw [strCmp_neg_iff]
      exact lt_asymm h1
    simp only [h1, h2, strCmp_neg_iff, if_pos, if_neg, not_false_eq_true]
  · rw [strCmp_neg_iff] at h1
    have h2 : strCmp r.player r.opponent < 0 := by
      rw [strCmp_neg_iff]
      exact lt_of_le_of_ne (le_of_not_lt h1) h
    simp only [strCmp_neg_iff, h2, if_pos, h1, if_neg, not_false_eq_true]

theorem canonicalize_p1_le_p2 (r : NormRec) :
    (canonicalize r).p1 ≤ (canonicalize r).p2 := by
  unfold canonicalize
  by_cases h1 : strCmp r.opponent r.player < 0
  · rw [strCmp_neg_iff] at h1
    simp only [strCmp_neg_iff, h1, if_pos]
    exact le_of_lt h1
  · simp only [h1, if_neg, not_false_eq_true]
    rw [strCmp_neg_iff] at h1
    exact le_of_not_lt h1

/-- The scores stay attached to their owners through the swap. -/
theorem canonicalize_owner (r : NormRec) :
    ((canonicalize r).p1 = r.player ∧ (canonicalize r).s1 = r.ps ∧
      (canonicalize r).p2 = r.opponent ∧ (canonicalize r).s2 = r.osc) ∨
    ((canonicalize r).p1 = r.opponent ∧ (canonicalize r).s1 = r.osc ∧
      (canonicalize r).p2 = r.player ∧ (canonicalize r).s2 = r.ps) := by
  unfold canonicalize
  by_cases h1 : strCmp r.opponent r.player < 0
  · right
    simp [h1]
  · left
    simp [h1]

/-- The normaliser `normRecOf` commutes with the perspective swap. -/
theorem normRecOf_swap (dp : String → Option (Int × Nat × Nat)) (g : RawGame) :
    normRecOf dp (swapRaw g) = (normRecOf dp g).map swapRec := by
  unfold normRecOf swapRaw swapRec
  simp only
  by_cases hd : normDate dp g.date = ""
  · simp [hd]
  · by_cases hp : normName g.player = ""
    · by_cases ho : normName g.opponent = ""
      · simp [hd, hp, ho]
      · simp [hd, hp, ho]
    · by_cases ho : normName g.opponent = ""
      · simp [hd, hp, ho]
      · simp only [hd, hp, ho, false_or, or_false, if_false]
        cases toInt g.my_score <;> cases toInt g.opp_score <;> simp

/-- Fields of a successfully normalised part_001 record. -/
theorem normRecOf_fields {dp : String → Option (Int × Nat × Nat)} {g : RawGame} {r : NormRec}
    (h : normRecOf dp g = some r) :
    r.date ≠ "" ∧ r.player ≠ "" ∧ r.opponent ≠ "" := by
  unfold normRecOf at h
  by_cases hc : normDate dp g.date = "" ∨ normName g.player = "" ∨ normName g.opponent = ""
  · simp [hc] at h
  · simp only [hc, if_neg, not_false_eq_true] at h
    push_neg at hc
    cases hms : toInt g.my_score with
    | none => rw [hms] at h; simp at h
    | some ms =>
      cases hos : toInt g.opp_score with
      | none => rw [hms, hos] at h; simp at h
      | some os =>
        rw [hms, hos] at h
        simp only [Option.some.injEq] at h
        subst h
        exact ⟨hc.1, hc.2.1, hc.2.2⟩

/-- The canonical names are the normalised player/opponent names. -/
theorem canonicalize_names (r : NormRec) :
    ((canonicalize r).p1 = r.player ∨ (canonicalize r).p1 = r.opponent) ∧
      ((canonicalize r).p2 = r.player ∨ (canonicalize r).p2 = r.opponent) ∧
      (canonicalize r).date = r.date ∧ (canonicalize r).location = r.location := by
  unfold canonicalize
  by_cases h1 : strCmp r.opponent r.player < 0 <;> simp [h1]

/-! ### Deduplication properties -/

theorem dedupGo_sublist (seen : List String) (l : List CanonGame) :
    (dedupGo seen l).Sublist l := by
  induction l generalizing seen with
  | nil => simp [dedupGo]
  | cons g rest ih =>
    unfold dedupGo
    by_cases h : dedupKey g ∈ seen
    · simp only [h, if_pos]
      exact (ih seen).trans (List.sublist_cons_self g rest)
    · simp only [h, if_neg, not_false_eq_true]
      exact (ih (dedupKey g :: seen)).cons₂ g

theorem dedupGo_key_not_mem_seen {seen : List String} {l : List CanonGame} {g : CanonGame}
    (hg : g ∈ dedupGo seen l) : dedupKey g ∉ seen := by
  induction l generalizing seen with
  | nil => simp [dedupGo] at hg
  | cons a rest ih =>
    unfold dedupGo at hg
    by_cases h : dedupKey a ∈ seen
    · rw [if_pos h] at hg
      exact ih hg
    · rw [if_neg h] at hg
      rcases List.mem_cons.mp hg with hg | hg
      · exact hg ▸ h
      · intro hc
        exact (ih hg) (List.mem_cons_of_mem _ hc)

theorem dedupGo_keys_nodup (seen : List String) (l : List CanonGame) :
    ((dedupGo seen l).map dedupKey).Nodup := by
  induction l generalizing seen with
  | nil => simp [dedupGo]
  | cons g rest ih =>
    unfold dedupGo
    by_cases h : dedupKey g ∈ seen
    · simp only [h, if_pos]
      exact ih seen
    · simp only [h, if_neg, not_false_eq_true, List.map_cons, List.nodup_cons]
      refine ⟨?_, ih (dedupKey g :: seen)⟩
      intro hc
      rcases List.mem_map.mp hc with ⟨g', hg', hk⟩
      exact (dedupGo_key_not_mem_seen hg') (hk ▸ List.mem_cons_self _ _)

/-- Deduplication keeps, for each key, exactly the record found first. -/
theorem dedupGo_find? (seen : List String) (l : List CanonGame) (k : String)
    (hk : k ∉ seen) :
    (dedupGo seen l).find? (fun x => dedupKey x == k) = l.find? (fun x => dedupKey x == k) := by
  induction l generalizing seen with
  | nil => simp [dedupGo]
  | cons g rest ih =>
    unfold dedupGo
    by_cases hg : dedupKey g = k
    · have hgs : dedupKey g ∉ seen := hg ▸ hk
      simp only [hgs, if_neg, not_false_eq_true]
      rw [List.find?_cons_of_pos, List.find?_cons_of_pos] <;> simp [hg]
    · by_cases hs : dedupKey g ∈ seen
      · simp only [hs, if_pos]
        rw [List.find?_cons_of_neg _ (by simp [hg])]
        exact ih seen hk
      · simp only [hs, if_neg, not_false_eq_true]
        rw [List.find?_cons_of_neg _ (by simp [hg]), List.find?_cons_of_neg _ (by simp [hg])]
        refine ih (dedupKey g :: seen) ?_
        intro hc
        rcases List.mem_cons.mp hc with hc | hc
        · exact hg hc.symm
        · exact hk hc

theorem dedupStrGo_mem {seen l : List String} {a : String} (ha : a ∈ dedupStrGo seen l) :
    a ∈ l := by
  induction l generalizing seen with
  | nil => simp [dedupStrGo] at ha
  | cons b rest ih =>
    unfold dedupStrGo at ha
    by_cases h : b ∈ seen
    · rw [if_pos h] at ha
      exact List.mem_cons_of_mem _ (ih ha)
    · rw [if_neg h] at ha
      rcases List.mem_cons.mp ha with ha | ha
      · exact ha ▸ List.mem_cons_self _ _
      · exact List.mem_cons_of_mem _ (ih ha)

theorem mem_dedupStrGo {seen l : List String} {a : String} (ha : a ∈ l) (hs : a ∉ seen) :
    a ∈ dedupStrGo seen l := by
  induction l generalizing seen with
  | nil => simp at ha
  | cons b rest ih =>
    unfold dedupStrGo
    rcases List.mem_cons.mp ha with ha | ha
    · subst ha
      rw [if_neg hs]
      exact List.mem_cons_self _ _
    · by_cases h : b ∈ seen
      · rw [if_pos h]
        exact ih ha hs
      · rw [if_neg h]
        by_cases hab : a = b
        · exact hab ▸ List.mem_cons_self _ _
        · exact List.mem_cons_of_mem _ (ih ha (by simp [hs, hab]))

/-- Elements of `dedupStrGo seen l` are never in `seen`. -/
theorem dedupStrGo_not_mem_seen {seen l : List String} {a : String}
    (ha : a ∈ dedupStrGo seen l) : a ∉ seen := by
  induction l generalizing seen with
  | nil => simp [dedupStrGo] at ha
  | cons b rest ih =>
    unfold dedupStrGo at ha
    by_cases h : b ∈ seen
    · rw [if_pos h] at ha
      exact ih ha
    · rw [if_neg h] at ha
      rcases List.mem_cons.mp ha with ha | ha
      · exact ha ▸ h
      · intro hc
        exact (ih ha) (List.mem_cons_of_mem _ hc)

theorem dedupStrGo_nodup (seen l : List String) : (dedupStrGo seen l).Nodup := by
  induction l generalizing seen with
  | nil => simp [dedupStrGo]
  | cons b rest ih =>
    unfold dedupStrGo
    by_cases h : b ∈ seen
    · simp only [h, if_pos]
      exact ih seen
    · simp only [h, if_neg, not_false_eq_true, List.nodup_cons]
      refine ⟨fun hc => ?_, ih (b :: seen)⟩
      exact (dedupStrGo_not_mem_seen hc) (List.mem_cons_self _ _)

/-! ### Association list and `enumMap` properties -/

theorem assocGet_set_self (m : List (String × Nat)) (k : String) (v : Nat) :
    assocGet (assocSet m k v) k = some v := by
  induction m with
  | nil => simp [assocSet, assocGet]
  | cons p rest ih =>
    unfold assocSet
    by_cases h : p.1 = k
    · simp [h, assocGet]
    · simp only [h, if_neg, not_false_eq_true]
      unfold assocGet
      simp [h, ih]

theorem assocGet_set_ne (m : List (String × Nat)) (k k' : String) (v : Nat) (h : k' ≠ k) :
    assocGet (assocSet m k v) k' = assocGet m k' := by
  induction m with
  | nil => simp [assocSet, assocGet, h.symm]
  | cons p rest ih =>
    unfold assocSet
    by_cases hp : p.1 = k
    · simp only [hp, if_pos]
      unfold assocGet
      simp [h.symm, hp]
    · simp only [hp, if_neg, not_false_eq_true]
      unfold assocGet
      by_cases hq : p.1 = k'
      · simp [hq]
      · simp [hq, ih]

theorem assocGet_enumMap_gt {ks : List String} {s : Nat} {k : String} {v : Nat}
    (h : assocGet (enumMap ks s) k = some v) : s < v := by
  induction ks generalizing s with
  | nil => simp [enumMap, assocGet] at h
  | cons a rest ih =>
    unfold enumMap assocGet at h
    by_cases ha : a = k
    · simp only [ha, if_pos, Option.some.injEq] at h
      omega
    · simp only [ha, if_neg, not_false_eq_true] at h
      have := ih h
      omega

theorem assocGet_enumMap_of_mem {ks : List String} {s : Nat} {k : String} (h : k ∈ ks) :
    ∃ v, assocGet (enumMap ks s) k = some v ∧ s < v := by
  induction ks generalizing s with
  | nil => simp at h
  | cons a rest ih =>
    unfold enumMap assocGet
    by_cases ha : a = k
    · exact ⟨s + 1, by simp [ha], by omega⟩
    · rcases List.mem_cons.mp h with h | h
      · exact absurd h.symm ha
      · rcases ih h (s := s + 1) with ⟨v, hv, hlt⟩
        exact ⟨v, by simp [ha, hv], by omega⟩

theorem assocGet_enumMap_inj {ks : List String} {s : Nat} {k1 k2 : String} {v : Nat}
    (hnd : ks.Nodup) (h1 : assocGet (enumMap ks s) k1 = some v)
    (h2 : assocGet (enumMap ks s) k2 = some v) : k1 = k2 := by
  induction ks generalizing s with
  | nil => simp [enumMap, assocGet] at h1
  | cons a rest ih =>
    unfold enumMap assocGet at h1 h2
    rcases List.nodup_cons.mp hnd with ⟨_, hnd'⟩
    by_cases ha1 : a = k1
    · simp only [ha1, if_pos, Option.some.injEq] at h1
      by_cases ha2 : a = k2
      · rw [← ha1, ← ha2]
      · simp only [ha2, if_neg, not_false_eq_true] at h2
        have := assocGet_enumMap_gt h2
        omega
    · simp only [ha1, if_neg, not_false_eq_true] at h1
      by_cases ha2 : a = k2
      · simp only [ha2, if_pos, Option.some.injEq] at h2
        have := assocGet_enumMap_gt h1
        omega
      · simp only [ha2, if_neg, not_false_eq_true] at h2
        exact ih hnd' h1 h2

/-! ### Error paths preserve the transaction snapshot -/

theorem dbOp_error_snap {f : Faults} {db : Db} {upd : Store → Store} {r : String × Db}
    (h : dbOp f db upd = .error r) : r.2.snap = db.snap := by
  unfold dbOp at h
  cases hf : f.failAt db.idx with
  | none => rw [hf] at h; simp at h
  | some e =>
    rw [hf] at h
    simp only [Except.error.injEq] at h
    rw [← h]
    simp [bumpIdx]

theorem dbOp_ok_snap {f : Faults} {db : Db} {upd : Store → Store} {db' : Db}
    (h : dbOp f db upd = .ok db') : db'.snap = db.snap := by
  unfold dbOp at h
  cases hf : f.failAt db.idx with
  | none =>
    rw [hf] at h
    simp only [Except.ok.injEq] at h
    rw [← h]
    simp [bumpIdx]
  | some e => rw [hf] at h; simp at h

theorem insStep_error_snap {f : Faults} {db : Db} {idOf : Store → Nat}
    {app : Store → Nat → Store} {r : String × Db}
    (h : insStep f db idOf app = .error r) : r.2.snap = db.snap := by
  unfold insStep at h
  cases hf : f.failAt db.idx with
  | none => rw [hf] at h; simp at h
  | some e =>
    rw [hf] at h
    simp only [Except.error.injEq] at h
    rw [← h]
    simp [bumpIdx]

theorem insStep_ok_snap {f : Faults} {db : Db} {idOf : Store → Nat}
    {app : Store → Nat → Store} {r : Nat × Db}
    (h : insStep f db idOf app = .ok r) : r.2.snap = db.snap := by
  unfold insStep at h
  cases hf : f.failAt db.idx with
  | none =>
    rw [hf] at h
    simp only [Except.ok.injEq] at h
    rw [← h]
    simp [bumpIdx]
  | some e => rw [hf] at h; simp at h

theorem seqResetStep_snap (f : Faults) (db : Db) : (seqResetStep f db).snap = db.snap := by
  unfold seqResetStep
  cases hf : f.failAt db.idx <;> simp [bumpIdx]

theorem v1InsertPlayers_error_snap {f : Faults} {ns : List String} {m : List (String × Nat)}
    {db : Db} {r : String × Db}
    (h : v1InsertPlayers f ns m db = .error r) : r.2.snap = db.snap := by
  induction ns generalizing m db with
  | nil => simp [v1InsertPlayers] at h
  | cons n rest ih =>
    unfold v1InsertPlayers at h
    cases hi : insStep f db (fun s => s.pSeq + 1)
        (fun s id => { s with players := s.players ++ [⟨id, n⟩], pSeq := id }) with
    | error err =>
      rw [hi] at h
      simp only [Except.error.injEq] at h
      rw [← h]
      exact insStep_error_snap hi
    | ok p =>
      rw [hi] at h
      by_cases hz : p.1 = 0
      · simp only [hz, if_pos, Except.error.injEq] at h
        rw [← h]
        exact insStep_ok_snap hi
      · simp only [hz, if_neg, not_false_eq_true] at h
        rw [ih h]
        exact insStep_ok_snap hi

theorem v1InsertSessions_error_snap {f : Faults} {ks : List String} {m : List (String × Nat)}
    {db : Db} {r : String × Db}
    (h : v1InsertSessions f ks m db = .error r) : r.2.snap = db.snap := by
  induction ks generalizing m db with
  | nil => simp [v1InsertSessions] at h
  | cons key rest ih =>
    unfold v1InsertSessions at h
    cases hi : insStep f db (fun s => s.sSeq + 1)
        (fun s id => { s with sessions := s.sessions ++ [⟨id, (splitPairChar '|' key).1, some (splitPairChar '|' key).2⟩], sSeq := id }) with
    | error err =>
      rw [hi] at h
      simp only [Except.error.injEq] at h
      rw [← h]
      exact insStep_error_snap hi
    | ok p =>
      rw [hi] at h
      by_cases hz : p.1 = 0
      · simp only [hz, if_pos, Except.error.injEq] at h
        rw [← h]
        exact insStep_ok_snap hi
      · simp only [hz, if_neg, not_false_eq_true] at h
        rw [ih h]
        exact insStep_ok_snap hi

theorem v1InsertPlayers_ok_snap {f : Faults} {ns : List String} {m : List (String × Nat)}
    {db : Db} {r : List (String × Nat) × Db}
    (h : v1InsertPlayers f ns m db = .ok r) : r.2.snap = db.snap := by
  induction ns generalizing m db with
  | nil =>
    unfold v1InsertPlayers at h
    simp only [Except.ok.injEq] at h
    rw [← h]
  | cons n rest ih =>
    unfold v1InsertPlayers at h
    cases hi : insStep f db (fun s => s.pSeq + 1)
        (fun s id => { s with players := s.players ++ [⟨id, n⟩], pSeq := id }) with
    | error err => rw [hi] at h; simp at h
    | ok p =>
      rw [hi] at h
      by_cases hz : p.1 = 0
      · simp only [hz, if_pos] at h
        simp at h
      · simp only [hz, if_neg, not_false_eq_true] at h
        rw [ih h]
        exact insStep_ok_snap hi

theorem v1InsertSessions_ok_snap {f : Faults} {ks : List String} {m : List (String × Nat)}
    {db : Db} {r : List (String × Nat) × Db}
    (h : v1InsertSessions f ks m db = .ok r) : r.2.snap = db.snap := by
  induction ks generalizing m db with
  | nil =>
    unfold v1InsertSessions at h
    simp only [Except.ok.injEq] at h
    rw [← h]
  | cons key rest ih =>
    unfold v1InsertSessions at h
    cases hi : insStep f db (fun s => s.sSeq + 1)
        (fun s id => { s with sessions := s.sessions ++ [⟨id, (splitPairChar '|' key).1, some (splitPairChar '|' key).2⟩], sSeq := id }) with
    | error err => rw [hi] at h; simp at h
    | ok p =>
      rw [hi] at h
      by_cases hz : p.1 = 0
      · simp only [hz, if_pos] at h
        simp at h
      · simp only [hz, if_neg, not_false_eq_true] at h
        rw [ih h]
        exact insStep_ok_snap hi

theorem v1GamesLoop_error_snap {f : Faults} {pmap smap : List (String × Nat)}
    {gs : List CanonGame} {rcounts : List (String × Nat)} {rc gc : Nat}
    {db : Db} {r : String × Db}
    (h : v1GamesLoop f pmap smap gs rcounts rc gc db = .error r) : r.2.snap = db.snap := by
  induction gs generalizing rcounts rc gc db with
  | nil => simp [v1GamesLoop] at h
  | cons g rest ih =>
    unfold v1GamesLoop at h
    by_cases hsid : (assocGet smap (sessionKeyOf g)).getD 0 = 0
    · simp only [hsid, if_pos, Except.error.injEq] at h
      rw [← h]
    · simp only [hsid, if_neg, not_false_eq_true] at h
      cases hi : insStep f db (fun s => s.rSeq + 1)
          (fun s id => { s with rounds := s.rounds ++ [⟨id, (assocGet smap (sessionKeyOf g)).getD 0, (assocGet rcounts (sessionKeyOf g)).getD 0 + 1⟩], rSeq := id }) with
      | error err =>
        rw [hi] at h
        simp only [Except.error.injEq] at h
        rw [← h]
        exact insStep_error_snap hi
      | ok p =>
        rw [hi] at h
        by_cases hz : p.1 = 0
        · simp only [hz, if_pos, Except.error.injEq] at h
          rw [← h]
          exact insStep_ok_snap hi
        · simp only [hz, if_neg, not_false_eq_true] at h
          by_cases hpid : (assocGet pmap g.p1).getD 0 = 0 ∨ (assocGet pmap g.p2).getD 0 = 0
          · simp only [hpid, if_pos, Except.error.injEq] at h
            rw [← h]
            exact insStep_ok_snap hi
          · simp only [hpid, if_neg, not_false_eq_true] at h
            cases hd : dbOp f p.2 (fun s =>
                { s with games := s.games ++ [⟨s.gSeq + 1, p.1, (assocGet pmap g.p1).getD 0, (assocGet pmap g.p2).getD 0, g.s1, g.s2⟩], gSeq := s.gSeq + 1 }) with
            | error err2 =>
              rw [hd] at h
              simp only [Except.error.injEq] at h
              rw [← h, dbOp_error_snap hd]
              exact insStep_ok_snap hi
            | ok db2 =>
              rw [hd] at h
              rw [ih h, dbOp_ok_snap hd]
              exact insStep_ok_snap hi

theorem v1GamesLoop_ok_snap {f : Faults} {pmap smap : List (String × Nat)}
    {gs : List CanonGame} {rcounts : List (String × Nat)} {rc gc : Nat}
    {db : Db} {r : Nat × Nat × Db}
    (h : v1GamesLoop f pmap smap gs rcounts rc gc db = .ok r) : r.2.2.snap = db.snap := by
  induction gs generalizing rcounts rc gc db with
  | nil =>
    unfold v1GamesLoop at h
    simp only [Except.ok.injEq] at h
    rw [← h]
  | cons g rest ih =>
    unfold v1GamesLoop at h
    by_cases hsid : (assocGet smap (sessionKeyOf g)).getD 0 = 0
    · simp only [hsid, if_pos] at h
      simp at h
    · simp only [hsid, if_neg, not_false_eq_true] at h
      cases hi : insStep f db (fun s => s.rSeq + 1)
          (fun s id => { s with rounds := s.rounds ++ [⟨id, (assocGet smap (sessionKeyOf g)).getD 0, (assocGet rcounts (sessionKeyOf g)).getD 0 + 1⟩], rSeq := id }) with
      | error err => rw [hi] at h; simp at h
      | ok p =>
        rw [hi] at h
        by_cases hz : p.1 = 0
        · simp only [hz, if_pos] at h
          simp at h
        · simp only [hz, if_neg, not_false_eq_true] at h
          by_cases hpid : (assocGet pmap g.p1).getD 0 = 0 ∨ (assocGet pmap g.p2).getD 0 = 0
          · simp only [hpid, if_pos] at h
            simp at h
          · simp only [hpid, if_neg, not_false_eq_true] at h
            cases hd : dbOp f p.2 (fun s =>
                { s with games := s.games ++ [⟨s.gSeq + 1, p.1, (assocGet pmap g.p1).getD 0, (assocGet pmap g.p2).getD 0, g.s1, g.s2⟩], gSeq := s.gSeq + 1 }) with
            | error err2 => rw [hd] at h; simp at h
            | ok db2 =>
              rw [hd] at h
              rw [ih h, dbOp_ok_snap hd]
              exact insStep_ok_snap hi

/-- Any failing run of part_001's loader still holds the `BEGIN` snapshot of
the pre-import store (or never opened the transaction at all), so the
`catch`'s `ROLLBACK` restores exactly the pre-import store. -/
theorem loaderRun_error_restore {f : Faults} {games : List CanonGame} {pn sk : List String}
    {pre : Store} {r : String × Db}
    (h : loaderRun f games pn sk pre = .error r) : r.2.snap.getD r.2.store = pre := by
  unfold loaderRun at h
  simp only [bind, Except.bind] at h
  cases hb : beginStep f ⟨pre, none, 0⟩ with
  | error err =>
    simp only [hb, Except.error.injEq] at h
    unfold beginStep at hb
    cases hf : f.failAt (0 : Nat) with
    | none => rw [hf] at hb; simp at hb
    | some e =>
      rw [hf] at hb
      simp only [Except.error.injEq] at hb
      rw [← h, ← hb]
      simp [bumpIdx]
  | ok db1 =>
    have hsnap1 : db1.snap = some pre := by
      unfold beginStep at hb
      cases hf : f.failAt (0 : Nat) with
      | none =>
        rw [hf] at hb
        simp only [Except.ok.injEq] at hb
        rw [← hb]
      | some e => rw [hf] at hb; simp at hb
    simp only [hb] at h
    cases h1 : dbOp f db1 fun s => { s with games := [] } with
    | error err =>
      simp only [h1, Except.error.injEq] at h
      rw [← h, dbOp_error_snap h1, hsnap1]
      simp
    | ok db2 =>
      simp only [h1] at h
      have hs2 : db2.snap = some pre := by rw [dbOp_ok_snap h1, hsnap1]
      cases h2 : dbOp f db2 fun s => { s with rounds := [] } with
      | error err =>
        simp only [h2, Except.error.injEq] at h
        rw [← h, dbOp_error_snap h2, hs2]
        simp
      | ok db3 =>
        simp only [h2] at h
        have hs3 : db3.snap = some pre := by rw [dbOp_ok_snap h2, hs2]
        cases h3 : dbOp f db3 fun s => { s with sessions := [] } with
        | error err =>
          simp only [h3, Except.error.injEq] at h
          rw [← h, dbOp_error_snap h3, hs3]
          simp
        | ok db4 =>
          simp only [h3] at h
          have hs4 : db4.snap = some pre := by rw [dbOp_ok_snap h3, hs3]
          cases h4 : dbOp f db4 fun s => { s with players := [] } with
          | error err =>
            simp only [h4, Except.error.injEq] at h
            rw [← h, dbOp_error_snap h4, hs4]
            simp
          | ok db5 =>
            simp only [h4] at h
            have hs5 : (seqResetStep f db5).snap = some pre := by
              rw [seqResetStep_snap, dbOp_ok_snap h4, hs4]
            cases h5 : v1InsertPlayers f pn [] (seqResetStep f db5) with
            | error err =>
              simp only [h5, Except.error.injEq] at h
              rw [← h, v1InsertPlayers_error_snap h5, hs5]
              simp
            | ok rp =>
              simp only [h5] at h
              have hs6 : rp.2.snap = some pre := by rw [v1InsertPlayers_ok_snap h5, hs5]
              cases h6 : v1InsertSessions f sk [] rp.2 with
              | error err =>
                simp only [h6, Except.error.injEq] at h
                rw [← h, v1InsertSessions_error_snap h6, hs6]
                simp
              | ok rs =>
                simp only [h6] at h
                have hs7 : rs.2.snap = some pre := by rw [v1InsertSessions_ok_snap h6, hs6]
                cases h7 : v1GamesLoop f rp.1 rs.1 games [] 0 0 rs.2 with
                | error err =>
                  simp only [h7, Except.error.injEq] at h
                  rw [← h, v1GamesLoop_error_snap h7, hs7]
                  simp
                | ok rg =>
                  simp only [h7] at h
                  have hs8 : rg.2.2.snap = some pre := by rw [v1GamesLoop_ok_snap h7, hs7]
                  cases h8 : commitStep f rg.2.2 with
                  | error err =>
                    simp only [h8, Except.error.injEq] at h
                    have hcs : err.2.snap = rg.2.2.snap := by
                      unfold commitStep at h8
                      cases hf : f.failAt rg.2.2.idx with
                      | none => rw [hf] at h8; simp at h8
                      | some e =>
                        rw [hf] at h8
                        simp only [Except.error.injEq] at h8
                        rw [← h8]
                        simp [bumpIdx]
                    rw [← h, hcs, hs8]
                    simp
                  | ok dbf =>
                    simp only [h8] at h
                    simp [pure, Except.pure] at h

/-! ### Closed form of a fault-free run -/

theorem dbOp_noFaults (db : Db) (upd : Store → Store) :
    dbOp noFaults db upd = .ok { bumpIdx db with store := upd db.store } := rfl

theorem insStep_noFaults (db : Db) (idOf : Store → Nat) (app : Store → Nat → Store) :
    insStep noFaults db idOf app =
      .ok (idOf db.store, { bumpIdx db with store := app db.store (idOf db.store) }) := rfl

theorem beginStep_noFaults (db : Db) :
    beginStep noFaults db = .ok { bumpIdx db with snap := some db.store } := rfl

theorem commitStep_noFaults (db : Db) :
    commitStep noFaults db = .ok { bumpIdx db with snap := none } := rfl

theorem seqResetStep_noFaults (db : Db) :
    seqResetStep noFaults db =
      { bumpIdx db with store := { db.store with pSeq := 0, sSeq := 0, rSeq := 0, gSeq := 0 } } :=
  rfl

theorem v1InsertPlayers_noFaults (ns : List String) :
    ∀ (m : List (String × Nat)) (db : Db),
    v1InsertPlayers noFaults ns m db =
      .ok (m ++ enumMap ns db.store.pSeq,
        ⟨{ db.store with
            players := db.store.players ++ playerRowsOf ns db.store.pSeq
            pSeq := db.store.pSeq + ns.length }, db.snap, db.idx + ns.length⟩) := by
  induction ns with
  | nil =>
    intro m db
    simp [v1InsertPlayers, enumMap, playerRowsOf]
  | cons n rest ih =>
    intro m db
    simp only [v1InsertPlayers, insStep_noFaults, Nat.succ_ne_zero, if_false, ih, bumpIdx,
      enumMap, playerRowsOf, List.append_assoc, List.singleton_append, List.length_cons,
      Except.ok.injEq, Prod.mk.injEq, Db.mk.injEq, Store.mk.injEq]
    repeat' apply And.intro
    all_goals first | rfl | omega | trivial

theorem v1InsertSessions_noFaults (ks : List String) :
    ∀ (m : List (String × Nat)) (db : Db),
    v1InsertSessions noFaults ks m db =
      .ok (m ++ enumMap ks db.store.sSeq,
        ⟨{ db.store with
            sessions := db.store.sessions ++ sessionRowsOf ks db.store.sSeq
            sSeq := db.store.sSeq + ks.length }, db.snap, db.idx + ks.length⟩) := by
  induction ks with
  | nil =>
    intro m db
    simp [v1InsertSessions, enumMap, sessionRowsOf]
  | cons key rest ih =>
    intro m db
    simp only [v1InsertSessions, insStep_noFaults, Nat.succ_ne_zero, if_false, ih, bumpIdx,
      enumMap, sessionRowsOf, List.append_assoc, List.singleton_append, List.length_cons,
      Except.ok.injEq, Prod.mk.injEq, Db.mk.injEq, Store.mk.injEq]
    repeat' apply And.intro
    all_goals first | rfl | omega | trivial

theorem v1GamesLoop_noFaults (pmap smap : List (String × Nat)) (gs : List CanonGame) :
    ∀ (rcounts : List (String × Nat)) (rc gc : Nat) (db : Db),
    (∀ g ∈ gs, (assocGet smap (sessionKeyOf g)).getD 0 ≠ 0) →
    (∀ g ∈ gs, (assocGet pmap g.p1).getD 0 ≠ 0 ∧ (assocGet pmap g.p2).getD 0 ≠ 0) →
    v1GamesLoop noFaults pmap smap gs rcounts rc gc db =
      .ok (rc + gs.length, gc + gs.length,
        ⟨{ db.store with
            rounds := db.store.rounds ++ (pureLoad pmap smap rcounts db.store.rSeq db.store.gSeq gs).1
            games := db.store.games ++ (pureLoad pmap smap rcounts db.store.rSeq db.store.gSeq gs).2
            rSeq := db.store.rSeq + gs.length
            gSeq := db.store.gSeq + gs.length },
          db.snap, db.idx + 2 * gs.length⟩) := by
  induction gs with
  | nil =>
    intro rcounts rc gc db _ _
    simp [v1GamesLoop, pureLoad]
  | cons g rest ih =>
    intro rcounts rc gc db hs hp
    have hsid := hs g (List.mem_cons_self _ _)
    have hpid := hp g (List.mem_cons_self _ _)
    have hs2 : ∀ x ∈ rest, (assocGet smap (sessionKeyOf x)).getD 0 ≠ 0 :=
      fun x hx => hs x (List.mem_cons_of_mem _ hx)
    have hp2 : ∀ x ∈ rest, (assocGet pmap x.p1).getD 0 ≠ 0 ∧ (assocGet pmap x.p2).getD 0 ≠ 0 :=
      fun x hx => hp x (List.mem_cons_of_mem _ hx)
    have hnotor : ¬ ((assocGet pmap g.p1).getD 0 = 0 ∨ (assocGet pmap g.p2).getD 0 = 0) := by
      rcases hpid with ⟨hq1, hq2⟩
      rintro (hc | hc)
      · exact hq1 hc
      · exact hq2 hc
    simp only [v1GamesLoop, hsid, if_neg, not_false_eq_true, insStep_noFaults,
      Nat.succ_ne_zero, if_false, hnotor, dbOp_noFaults, bumpIdx, ih _ _ _ _ hs2 hp2,
      pureLoad, List.append_assoc, List.singleton_append, List.length_cons,
      Except.ok.injEq, Prod.mk.injEq, Db.mk.injEq, Store.mk.injEq]
    repeat' apply And.intro
    all_goals first | rfl | omega | trivial

/-- A fault-free part_001 loader run commits and leaves exactly `loadedStore`. -/
theorem loaderRun_noFaults (games : List CanonGame) (pn sk : List String) (pre : Store)
    (hs : ∀ g ∈ games, (assocGet (enumMap sk 0) (sessionKeyOf g)).getD 0 ≠ 0)
    (hp : ∀ g ∈ games,
      (assocGet (enumMap pn 0) g.p1).getD 0 ≠ 0 ∧ (assocGet (enumMap pn 0) g.p2).getD 0 ≠ 0) :
    loaderRun noFaults games pn sk pre =
      .ok (games.length, games.length,
        ⟨loadedStore games pn sk, none, 6 + pn.length + sk.length + 2 * games.length + 1⟩) := by
  unfold loaderRun
  simp only [bind, Except.bind, beginStep_noFaults, dbOp_noFaults, seqResetStep_noFaults,
    bumpIdx, List.nil_append]
  rw [v1InsertPlayers_noFaults]
  simp only [List.nil_append]
  rw [v1InsertSessions_noFaults]
  simp only [List.nil_append]
  rw [v1GamesLoop_noFaults _ _ _ _ _ _ _ hs hp]
  simp only [List.nil_append]
  rw [commitStep_noFaults]
  simp only [bumpIdx, pure, Except.pure, loadedStore, List.nil_append,
    Except.ok.injEq, Prod.mk.injEq, Db.mk.injEq, Store.mk.injEq]
  repeat' apply And.intro
  all_goals first | rfl | omega | trivial

/-! ### The pipeline feeds the loader well-formed data -/

theorem mem_sortGames {l : List CanonGame} {g : CanonGame} :
    g ∈ sortGames l ↔ g ∈ l :=
  (List.perm_insertionSort gameLE l).mem_iff

theorem mem_dedupGames {l : List CanonGame} {g : CanonGame} (h : g ∈ dedupGames l) : g ∈ l :=
  (dedupGo_sublist [] l).subset h

theorem mem_candidatesOf {dp : String → Option (Int × Nat × Nat)} {xs : List RawGame}
    {g : CanonGame} (h : g ∈ candidatesOf dp xs) :
    ∃ raw ∈ xs, ∃ r : NormRec, normRecOf dp raw = some r ∧ canonicalize r = g := by
  unfold candidatesOf at h
  rcases List.mem_filterMap.mp h with ⟨raw, hraw, hmap⟩
  rcases Option.map_eq_some'.mp hmap with ⟨r, hr, hc⟩
  exact ⟨raw, hraw, r, hr, hc⟩

theorem candidatesOf_names_ne {dp : String → Option (Int × Nat × Nat)} {xs : List RawGame}
    {g : CanonGame} (h : g ∈ candidatesOf dp xs) : g.p1 ≠ "" ∧ g.p2 ≠ "" := by
  rcases mem_candidatesOf h with ⟨raw, _, r, hr, hc⟩
  rcases normRecOf_fields hr with ⟨_, hpl, hop⟩
  rcases canonicalize_names r with ⟨h1, h2, _, _⟩
  subst hc
  constructor
  · rcases h1 with h1 | h1 <;> rw [h1] <;> assumption
  · rcases h2 with h2 | h2 <;> rw [h2] <;> assumption

theorem mem_v1Games_candidates {dp : String → Option (Int × Nat × Nat)} {xs : List RawGame}
    {g : CanonGame} (h : g ∈ v1Games dp xs) : g ∈ candidatesOf dp xs :=
  mem_dedupGames (mem_sortGames.mp h)

theorem mem_playerNamesOf {games : List CanonGame} {g : CanonGame} (hg : g ∈ games)
    (h1 : g.p1 ≠ "") (h2 : g.p2 ≠ "") :
    g.p1 ∈ playerNamesOf games ∧ g.p2 ∈ playerNamesOf games := by
  unfold playerNamesOf
  constructor <;> rw [List.mem_insertionSort] <;>
    refine mem_dedupStrGo ?_ (by simp) <;> rw [List.mem_filter] <;>
    refine ⟨List.mem_flatMap.mpr ⟨g, hg, by simp⟩, by simp [h1, h2]⟩

theorem mem_sessionKeysOf {games : List CanonGame} {g : CanonGame} (hg : g ∈ games) :
    sessionKeyOf g ∈ sessionKeysOf games := by
  unfold sessionKeysOf
  rw [List.mem_insertionSort]
  exact mem_dedupStrGo (List.mem_map_of_mem _ hg) (by simp)

theorem sessionKeysOf_nodup (games : List CanonGame) : (sessionKeysOf games).Nodup := by
  unfold sessionKeysOf
  exact ((List.perm_insertionSort nameLE _).nodup_iff).mpr (dedupStrGo_nodup [] _)

/-- The two lookup side conditions a fault-free loader run needs, for the
lists `v1Import` derives from the record list itself. -/
theorem v1Games_sides (dp : String → Option (Int × Nat × Nat)) (xs : List RawGame) :
    (∀ g ∈ v1Games dp xs,
      (assocGet (enumMap (sessionKeysOf (v1Games dp xs)) 0) (sessionKeyOf g)).getD 0 ≠ 0) ∧
    (∀ g ∈ v1Games dp xs,
      (assocGet (enumMap (playerNamesOf (v1Games dp xs)) 0) g.p1).getD 0 ≠ 0 ∧
      (assocGet (enumMap (playerNamesOf (v1Games dp xs)) 0) g.p2).getD 0 ≠ 0) := by
  constructor
  · intro g hg
    rcases assocGet_enumMap_of_mem (mem_sessionKeysOf hg) (s := 0) with ⟨v, hv, hlt⟩
    rw [hv]
    simp
    omega
  · intro g hg
    rcases candidatesOf_names_ne (mem_v1Games_candidates hg) with ⟨h1, h2⟩
    rcases mem_playerNamesOf hg h1 h2 with ⟨hm1, hm2⟩
    constructor
    · rcases assocGet_enumMap_of_mem hm1 (s := 0) with ⟨v, hv, hlt⟩
      rw [hv]
      simp
      omega
    · rcases assocGet_enumMap_of_mem hm2 (s := 0) with ⟨v, hv, hlt⟩
      rw [hv]
      simp
      omega

/-- part_001's import on a fault-free backend: the success response and the
exact final store, independent of the pre-import store. -/
theorem v1Import_noFaults (dp : String → Option (Int × Nat × Nat)) (xs : List RawGame)
    (pre : Store) (h : xs ≠ []) :
    v1Import dp noFaults (.arr xs) pre =
      (.success xs.length (candidatesOf dp xs).length (v1Games dp xs).length
        (playerNamesOf (v1Games dp xs)).length (sessionKeysOf (v1Games dp xs)).length
        (v1Games dp xs).length (v1Games dp xs).length,
       loadedStore (v1Games dp xs) (playerNamesOf (v1Games dp xs))
         (sessionKeysOf (v1Games dp xs))) := by
  have hlen : xs.length ≠ 0 := fun hc => h (List.length_eq_zero.mp hc)
  unfold v1Import
  simp only [hlen, if_neg, not_false_eq_true]
  have hsides := v1Games_sides dp xs
  unfold v1Games at hsides
  rw [loaderRun_noFaults _ _ _ pre hsides.1 hsides.2]
  simp [v1Games]

/-! ### Round numbering in a fault-free load -/

theorem pureLoad_games_length (pmap smap : List (String × Nat)) :
    ∀ (gs : List CanonGame) (rcounts : List (String × Nat)) (rSeq gSeq : Nat),
    (pureLoad pmap smap rcounts rSeq gSeq gs).2.length = gs.length := by
  intro gs
  induction gs with
  | nil => intro rcounts rSeq gSeq; simp [pureLoad]
  | cons g rest ih =>
    intro rcounts rSeq gSeq
    simp [pureLoad, ih]

/-- Walking the list, the round numbers emitted for the session of key `k`
continue the per-key counter: they are the consecutive block starting one
past the counter's current value. -/
theorem pureLoad_rounds_filter_key (pmap smap : List (String × Nat)) (k : String)
    (hinj : ∀ k2, (assocGet smap k2).getD 0 = (assocGet smap k).getD 0 → k2 = k) :
    ∀ (gs : List CanonGame) (rcounts : List (String × Nat)) (rSeq gSeq : Nat),
    (((pureLoad pmap smap rcounts rSeq gSeq gs).1.filter
        (fun r => r.session_id == (assocGet smap k).getD 0)).map (fun r => r.round_number)) =
      List.range' ((assocGet rcounts k).getD 0 + 1)
        (gs.countP (fun g => sessionKeyOf g == k)) := by
  intro gs
  induction gs with
  | nil => intro rcounts rSeq gSeq; simp [pureLoad]
  | cons g rest ih =>
    intro rcounts rSeq gSeq
    by_cases hgk : sessionKeyOf g = k
    · simp only [pureLoad, List.filter_cons, List.countP_cons, hgk, beq_self_eq_true,
        if_true, List.map_cons, ih]
      rw [assocGet_set_self]
      simp [List.range'_succ]
    · have hne : ((⟨rSeq + 1, (assocGet smap (sessionKeyOf g)).getD 0,
          (assocGet rcounts (sessionKeyOf g)).getD 0 + 1⟩ : RoundRow).session_id ==
            (assocGet smap k).getD 0) = false := by
        simp only [beq_eq_false_iff_ne, ne_eq]
        intro hc
        exact hgk (hinj _ hc)
      have hkeep : (assocGet (assocSet rcounts (sessionKeyOf g)
          ((assocGet rcounts (sessionKeyOf g)).getD 0 + 1)) k) = assocGet rcounts k :=
        assocGet_set_ne _ _ _ _ (fun hc => hgk hc.symm)
      have hcp : (sessionKeyOf g == k) = false := by
        simp [hgk]
      simp only [pureLoad, List.filter_cons, List.countP_cons, hne, if_false, hcp,
        Bool.false_eq_true, ih, hkeep]
      simp

theorem pureLoad_rounds_filter_none (pmap smap : List (String × Nat)) (sid : Nat) :
    ∀ (gs : List CanonGame) (rcounts : List (String × Nat)) (rSeq gSeq : Nat),
    (∀ g ∈ gs, (assocGet smap (sessionKeyOf g)).getD 0 ≠ sid) →
    ((pureLoad pmap smap rcounts rSeq gSeq gs).1.filter (fun r => r.session_id == sid)) = [] := by
  intro gs
  induction gs with
  | nil => intro rcounts rSeq gSeq _; simp [pureLoad]
  | cons g rest ih =>
    intro rcounts rSeq gSeq h
    have hg := h g (List.mem_cons_self _ _)
    have hrest : ∀ x ∈ rest, (assocGet smap (sessionKeyOf x)).getD 0 ≠ sid :=
      fun x hx => h x (List.mem_cons_of_mem _ hx)
    simp only [pureLoad, List.filter_cons]
    have hne : (((⟨rSeq + 1, (assocGet smap (sessionKeyOf g)).getD 0,
        (assocGet rcounts (sessionKeyOf g)).getD 0 + 1⟩ : RoundRow).session_id == sid)) = false := by
      simp [hg]
    rw [hne]
    simp only [Bool.false_eq_true, if_false]
    exact ih _ _ _ hrest

/-! ### Sortedness and uniqueness of the deterministic order -/

theorem sortGames_sorted (l : List CanonGame) : (sortGames l).Sorted gameLE :=
  List.sorted_insertionSort gameLE l

theorem sortGames_perm (l : List CanonGame) : (sortGames l).Perm l :=
  List.perm_insertionSort gameLE l

theorem gameLT_of_le_of_key_ne {a b : CanonGame} (hle : gameLE a b)
    (hne : dedupKey a ≠ dedupKey b) : gameLT a b := by
  unfold gameLE at hle
  unfold gameLT
  rcases lt_or_eq_of_le hle with h | h
  · exact h
  · rcases (cmpGame_eq_zero_iff a b).mp h with ⟨h1, h2, _, h4, h5, h6, h7⟩
    exact absurd (dedupKey_congr h1 h2 h4 h5 h6 h7) hne

theorem keysPairwise_ne_symm :
    ∀ {x y : CanonGame}, (dedupKey x ≠ dedupKey y) → (dedupKey y ≠ dedupKey x) :=
  fun h => h.symm

/-- Given pairwise-distinct dedup keys, the sorted arrangement of a multiset
of canonical records is unique: sorting any permutation gives the same
list. -/
theorem sortGames_deterministic {l l2 : List CanonGame} (hp : l.Perm l2)
    (hk : l.Pairwise fun a b => dedupKey a ≠ dedupKey b) : sortGames l = sortGames l2 := by
  have hperm : (sortGames l).Perm (sortGames l2) :=
    ((sortGames_perm l).trans hp).trans (sortGames_perm l2).symm
  have hk1 : (sortGames l).Pairwise fun a b => dedupKey a ≠ dedupKey b :=
    ((sortGames_perm l).pairwise_iff keysPairwise_ne_symm).mpr hk
  have hk2 : (sortGames l2).Pairwise fun a b => dedupKey a ≠ dedupKey b :=
    (hperm.pairwise_iff keysPairwise_ne_symm).mp hk1
  have hs1 : (sortGames l).Sorted gameLT :=
    ((sortGames_sorted l).and hk1).imp fun h => gameLT_of_le_of_key_ne h.1 h.2
  have hs2 : (sortGames l2).Sorted gameLT :=
    ((sortGames_sorted l2).and hk2).imp fun h => gameLT_of_le_of_key_ne h.1 h.2
  exact List.eq_of_perm_of_sorted hperm hs1 hs2

theorem dedupGames_keys_pairwise (l : List CanonGame) :
    (dedupGames l).Pairwise fun a b => dedupKey a ≠ dedupKey b := by
  have := dedupGo_keys_nodup [] l
  rw [List.Nodup, List.pairwise_map] at this
  exact this

/-! ### Small helpers for the claim statements -/

theorem playerRowsOf_names : ∀ (ns : List String) (s : Nat),
    (playerRowsOf ns s).map (fun p => p.name) = ns := by
  intro ns
  induction ns with
  | nil => intro s; simp [playerRowsOf]
  | cons n rest ih => intro s; simp [playerRowsOf, ih]

theorem playerNamesOf_sorted (games : List CanonGame) :
    (playerNamesOf games).Sorted nameLE :=
  List.sorted_insertionSort nameLE _

theorem sessionKeysOf_sorted (games : List CanonGame) :
    (sessionKeysOf games).Sorted nameLE :=
  List.sorted_insertionSort nameLE _

theorem loadedStore_games_length (games : List CanonGame) (pn sk : List String) :
    (loadedStore games pn sk).games.length = games.length := by
  unfold loadedStore
  exact pureLoad_games_length _ _ _ _ _ _

/-! ### Concrete fixtures for witnesses and counterexamples -/

def dpTriv : String → Option (Int × Nat × Nat) := fun _ => none

/-- A string-valued JSON field. -/
def atomStr (s : String) : JVal := .atom ⟨s, none, true⟩

/-- A numeric JSON field. -/
def atomNum (n : Int) : JVal := .atom ⟨toString n, some n, true⟩

/-- The spec's end-to-end example record, reported from bob's perspective. -/
def rawBobAlice : RawGame :=
  { date := atomStr "2026-02-12", player := atomStr "bob", opponent := atomStr "Alice",
    my_score := atomNum 5, opp_score := atomNum 7 }

/-- A self-match record: player and opponent normalise to the same name. -/
def rawSelfA : RawGame :=
  { date := atomStr "2026-01-01", player := atomStr "A", opponent := atomStr "A",
    my_score := atomNum 1, opp_score := atomNum 2 }

/-- A placeholder row: every field absent. -/
def blankRaw : RawGame := {}

/-- A non-empty pre-import store (one player row, sequence counter 1). -/
def preW : Store := ⟨[⟨1, "Z"⟩], [], [], [], 1, 0, 0, 0⟩

/-- A backend that fails the very first statement. -/
def faultFirst : Faults := ⟨fun n => if n = 0 then some "boom" else none⟩

def selfNorm : NormRec := ⟨"2026-01-01", "Unknown", "A", "A", 1, 2, none⟩

def abNorm : NormRec := ⟨"2026-02-12", "Unknown", "bob", "Alice", 5, 7, none⟩

/-! ### Claim C1 -/

/-- C1: for every import in which any Transactional Loader step of part_001
fails (a delete or insert fails, an identifier cannot be resolved, or the
commit fails — i.e. the loader run returns an error), the handler answers
with the failure response carrying that error message, never a success, and
the store afterwards is exactly the pre-import store. -/
theorem c1_loader_failure_atomic (dp : String → Option (Int × Nat × Nat)) (f : Faults)
    (xs : List RawGame) (pre : Store) (r : String × Db) (hxs : xs ≠ [])
    (herr : loaderRun f (v1Games dp xs) (playerNamesOf (v1Games dp xs))
      (sessionKeysOf (v1Games dp xs)) pre = .error r) :
    v1Import dp f (.arr xs) pre = (.failure r.1, pre) := by
  obtain ⟨e, db⟩ := r
  have hlen : xs.length ≠ 0 := fun hc => hxs (List.length_eq_zero.mp hc)
  have hrestore := loaderRun_error_restore herr
  unfold v1Games at herr
  unfold v1Import
  simp only [hlen, if_neg, not_false_eq_true, herr]
  rw [hrestore]

theorem c1_witness :
    v1Import dpTriv faultFirst (.arr [blankRaw]) preW = (.failure "boom", preW) :=
  c1_loader_failure_atomic dpTriv faultFirst [blankRaw] preW ("boom", ⟨preW, none, 1⟩)
    (by simp) rfl

/-! ### Claim C2 -/

/-- C2 counterexample: on part_001, a non-empty `games` array containing only
a placeholder record wipes the store (the post-store differs from the
pre-store: all four tables are emptied) and the response is a plain success
carrying no `wiped: false` flag. -/
theorem c2_counterexample :
    (v1Import dpTriv noFaults (.arr [blankRaw]) preW).2 = emptyStore ∧
    emptyStore ≠ preW ∧
    (v1Import dpTriv noFaults (.arr [blankRaw]) preW).1 = .success 1 0 0 0 0 0 0 :=
  ⟨rfl, by decide, rfl⟩

/-- C2 (amended): on the part_000 handler, every input whose record set is
empty after normalization leaves the store untouched and reports
`wiped: false` with a diagnostic message and the accumulated warnings; the
part_001 handler guards only the literally-empty `games` array, leaving the
store untouched but answering a plain `ok` with no `wiped` field. -/
theorem c2_empty_guard_amended (dp : String → Option (Int × Nat × Nat)) (f : Faults)
    (raws : List RawGame) (pre : Store) (h : (normalizeGames dp raws).1 = []) :
    v0Import dp f (.arr raws) pre =
      (.noopGuard raws.length false
        "No valid games after normalization; did not modify database."
        (normalizeGames dp raws).2, pre) ∧
    v1Import dp f (.arr ([] : List RawGame)) pre = (.okEmpty, pre) := by
  constructor
  · unfold v0Import
    simp [h]
  · rfl

theorem c2_witness :
    v0Import dpTriv noFaults (.arr [blankRaw]) preW =
      (.noopGuard 1 false "No valid games after normalization; did not modify database."
        ["Row 0: skipped (missing score)"], preW) ∧
    v1Import dpTriv noFaults (.arr ([] : List RawGame)) preW = (.okEmpty, preW) :=
  c2_empty_guard_amended dpTriv noFaults [blankRaw] preW rfl

/-! ### Claim C3 -/

/-- C3: the part_001 loader has no self-play guard: a record whose player and
opponent normalise to the same name produces a stored Game row with
`player1_id = player2_id`, no skipped-record diagnostic, and an `ok`
response — the `player1_id != player2_id` invariant is violated in the
store.  (The part_000 loader does guard this case, lines 310-314.) -/
theorem c3_selfplay_stored_eval :
    (v1Import dpTriv noFaults (.arr [rawSelfA]) emptyStore).2.games =
      [⟨1, 1, 1, 1, 1, 2⟩] ∧
    ((v1Import dpTriv noFaults (.arr [rawSelfA]) emptyStore).2.games.all
      fun g => g.player1_id != g.player2_id) = false ∧
    (v1Import dpTriv noFaults (.arr [rawSelfA]) emptyStore).1 = .success 1 1 1 1 1 1 1 :=
  ⟨rfl, rfl, rfl⟩

/-! ### Claim C4 -/

/-- C4 counterexample: for a normalized record whose player and opponent are
equal but whose scores differ, canonicalizing it and canonicalizing its
perspective-swapped counterpart yield different `(s1, s2)` — the claimed
swap-invariance fails on self-matches. -/
theorem c4_counterexample :
    canonicalize (swapRec selfNorm) ≠ canonicalize selfNorm := by decide

/-- C4 (amended): for every normalized record whose two names differ,
canonicalization is invariant under the perspective swap (names and scores
swapped together); and in every produced canonical record `p1 ≤ p2` under
the normalized-name order, with each score attached to its original owner. -/
theorem c4_canonicalize_swap_amended (r : NormRec) :
    (r.player ≠ r.opponent → canonicalize (swapRec r) = canonicalize r) ∧
    (canonicalize r).p1 ≤ (canonicalize r).p2 ∧
    (((canonicalize r).p1 = r.player ∧ (canonicalize r).s1 = r.ps ∧
        (canonicalize r).p2 = r.opponent ∧ (canonicalize r).s2 = r.osc) ∨
      ((canonicalize r).p1 = r.opponent ∧ (canonicalize r).s1 = r.osc ∧
        (canonicalize r).p2 = r.player ∧ (canonicalize r).s2 = r.ps)) :=
  ⟨fun h => canonicalize_swap h, canonicalize_p1_le_p2 r, canonicalize_owner r⟩

theorem c4_witness :
    canonicalize (swapRec abNorm) = canonicalize abNorm ∧
    (canonicalize abNorm).p1 ≤ (canonicalize abNorm).p2 :=
  ⟨(c4_canonicalize_swap_amended abNorm).1 (by decide),
   (c4_canonicalize_swap_amended abNorm).2.1⟩

/-! ### Claim C5 -/

theorem dedupGames_pair (c : CanonGame) : dedupGames [c, c] = [c] := by
  simp [dedupGames, dedupGo]

theorem sortGames_single (c : CanonGame) : sortGames [c] = [c] := by
  simp [sortGames]

theorem playerNamesOf_pair {c : CanonGame} (h1 : c.p1 ≠ "") (h2 : c.p2 ≠ "")
    (hne : c.p1 ≠ c.p2) (hle : nameLE c.p1 c.p2) : playerNamesOf [c] = [c.p1, c.p2] := by
  unfold playerNamesOf dedupStr
  simp [dedupStrGo, h1, h2, hne, Ne.symm hne, List.insertionSort, List.orderedInsert, hle]

theorem sessionKeysOf_single (c : CanonGame) : sessionKeysOf [c] = [sessionKeyOf c] := by
  simp [sessionKeysOf, dedupStr, dedupStrGo, List.insertionSort]

/-- C5: deduplication keeps, per dedup key built from
`(date, location, p1, p2, s1, s2)`, exactly the first occurrence (the result
is a sublist with pairwise-distinct keys whose per-key first hit agrees with
the input's); consequently a valid two-sided record submitted twice — in
original or perspective-swapped form — stores exactly one Game row. -/
theorem c5_dedup_first_occurrence (dp : String → Option (Int × Nat × Nat))
    (g g2 : RawGame) (r : NormRec) (pre : Store)
    (hn : normRecOf dp g = some r) (hne : r.player ≠ r.opponent)
    (hg2 : g2 = g ∨ g2 = swapRaw g) :
    (∀ l : List CanonGame,
      (dedupGames l).Sublist l ∧ ((dedupGames l).map dedupKey).Nodup ∧
      ∀ x ∈ l, (dedupGames l).find? (fun y => dedupKey y == dedupKey x) =
        l.find? (fun y => dedupKey y == dedupKey x)) ∧
    (v1Import dp noFaults (.arr [g, g2]) pre).2.games.length = 1 ∧
    (v1Import dp noFaults (.arr [g, g2]) pre).1 = .success 2 2 1 2 1 1 1 := by
  refine ⟨fun l => ⟨dedupGo_sublist [] l, dedupGo_keys_nodup [] l,
    fun x _ => dedupGo_find? [] l _ (by simp)⟩, ?_⟩
  have hcand : candidatesOf dp [g, g2] = [canonicalize r, canonicalize r] := by
    rcases hg2 with h2 | h2 <;> subst h2 <;>
      simp [candidatesOf, hn, normRecOf_swap, canonicalize_swap hne]
  rcases normRecOf_fields hn with ⟨_, hpl, hop⟩
  rcases canonicalize_names r with ⟨hn1, hn2, _, _⟩
  have hp1 : (canonicalize r).p1 ≠ "" := by
    rcases hn1 with h | h <;> rw [h] <;> assumption
  have hp2 : (canonicalize r).p2 ≠ "" := by
    rcases hn2 with h | h <;> rw [h] <;> assumption
  have hpne : (canonicalize r).p1 ≠ (canonicalize r).p2 := by
    rcases canonicalize_owner r with ⟨h1, _, h3, _⟩ | ⟨h1, _, h3, _⟩
    · rw [h1, h3]
      exact hne
    · rw [h1, h3]
      exact fun hc => hne hc.symm
  have hple : nameLE (canonicalize r).p1 (canonicalize r).p2 :=
    (nameLE_iff _ _).mpr (canonicalize_p1_le_p2 r)
  have hv1 : v1Games dp [g, g2] = [canonicalize r] := by
    unfold v1Games
    rw [hcand, dedupGames_pair, sortGames_single]
  rw [v1Import_noFaults dp [g, g2] pre (by simp), hv1, hcand,
    playerNamesOf_pair hp1 hp2 hpne hple, sessionKeysOf_single]
  refine ⟨?_, rfl⟩
  rw [loadedStore_games_length]
  rfl

theorem c5_witness :
    (v1Import dpTriv noFaults
        (.arr [rawBobAlice, swapRaw rawBobAlice]) emptyStore).2.games.length = 1 ∧
    (v1Import dpTriv noFaults (.arr [rawBobAlice, swapRaw rawBobAlice]) emptyStore).1 =
      .success 2 2 1 2 1 1 1 := by
  have h := c5_dedup_first_occurrence dpTriv rawBobAlice (swapRaw rawBobAlice)
    abNorm emptyStore rfl (by decide) (Or.inr rfl)
  exact ⟨h.2.1, h.2.2⟩

/-! ### Claim C6 -/

def hintedBig : CanonGame := ⟨"2026-01-01", "Unknown", "A", "B", 1, 2, some 2000000000⟩

def noHint : CanonGame := ⟨"2026-01-01", "Unknown", "C", "D", 3, 4, none⟩

/-- C6 counterexample: with the same date and location, a record carrying the
hint `2000000000` sorts after a record carrying no hint (whose rank is the
fixed sentinel `10^9`) — so a record without a hint does not sort after all
records that have one. -/
theorem c6_counterexample :
    cmpGame noHint hintedBig < 0 ∧ sortGames [hintedBig, noHint] = [noHint, hintedBig] :=
  ⟨by decide, rfl⟩

/-- C6 (amended): the surviving record set is sorted (stably) by the total
preorder: date ascending, location ascending, then the hint rank — where a
record without a hint gets the fixed rank `10^9`, so it sorts after records
with hints below `10^9` but before hints above it — then `p1`, `p2`, `s1`,
`s2` ascending; and because survivors of deduplication have pairwise
distinct keys, this sorted arrangement is unique: sorting any reordering of
the survivors reproduces it byte-for-byte. -/
theorem c6_sort_order_amended (l : List CanonGame) :
    (sortGames (dedupGames l)).Sorted gameLE ∧
    (sortGames (dedupGames l)).Perm (dedupGames l) ∧
    (∀ a b : CanonGame, gameLE a b ↔
      (a.date < b.date ∨ (a.date = b.date ∧
        (a.location < b.location ∨ (a.location = b.location ∧
          (hintRank a < hintRank b ∨ (hintRank a = hintRank b ∧
            (a.p1 < b.p1 ∨ (a.p1 = b.p1 ∧
              (a.p2 < b.p2 ∨ (a.p2 = b.p2 ∧
                (a.s1 < b.s1 ∨ (a.s1 = b.s1 ∧ a.s2 ≤ b.s2))))))))))))) ∧
    (∀ l2, (dedupGames l).Perm l2 → sortGames (dedupGames l) = sortGames l2) := by
  refine ⟨sortGames_sorted _, sortGames_perm _, fun a b => ?_,
    fun l2 hp => sortGames_deterministic hp (dedupGames_keys_pairwise l)⟩
  unfold gameLE
  rw [cmpGame_le_iff]
  simp only [sortKey, Prod.Lex.le_iff]

theorem c6_witness :
    sortGames (dedupGames [noHint, hintedBig]) = sortGames [hintedBig, noHint] :=
  (c6_sort_order_amended [noHint, hintedBig]).2.2.2 [hintedBig, noHint] (by decide)

/-! ### Claim C7 -/

/-- C7: in part_001, round numbers are assigned by a per-session counter
starting at 1 and incremented once per record while walking the sorted
record list (never taken from any input field): after a fault-free import of
a non-empty request, for every session id the stored round numbers of that
session are exactly `1, 2, ..., N` in order, where `N` is that session's
row count — no gaps, no repeats. -/
theorem c7_round_numbers (dp : String → Option (Int × Nat × Nat)) (xs : List RawGame)
    (pre : Store) (sid : Nat) (hxs : xs ≠ []) :
    (((v1Import dp noFaults (.arr xs) pre).2.rounds.filter
        (fun rr => rr.session_id == sid)).map (fun rr => rr.round_number)) =
      List.range' 1 (((v1Import dp noFaults (.arr xs) pre).2.rounds.filter
        (fun rr => rr.session_id == sid)).length) := by
  rw [v1Import_noFaults dp xs pre hxs]
  simp only [loadedStore]
  by_cases hex : ∃ g ∈ v1Games dp xs,
      (assocGet (enumMap (sessionKeysOf (v1Games dp xs)) 0) (sessionKeyOf g)).getD 0 = sid
  · rcases hex with ⟨g, hg, hsid⟩
    have hgk := (v1Games_sides dp xs).1 g hg
    have hsome : ∃ v, assocGet (enumMap (sessionKeysOf (v1Games dp xs)) 0)
        (sessionKeyOf g) = some v ∧ 0 < v :=
      assocGet_enumMap_of_mem (mem_sessionKeysOf hg) (s := 0)
    have hinj : ∀ k2, (assocGet (enumMap (sessionKeysOf (v1Games dp xs)) 0) k2).getD 0 =
        (assocGet (enumMap (sessionKeysOf (v1Games dp xs)) 0) (sessionKeyOf g)).getD 0 →
        k2 = sessionKeyOf g := by
      intro k2 heq
      rcases hsome with ⟨v, hv, hvpos⟩
      rw [hv] at heq
      simp only [Option.getD_some] at heq
      cases hk2 : assocGet (enumMap (sessionKeysOf (v1Games dp xs)) 0) k2 with
      | none =>
        rw [hk2] at heq
        simp only [Option.getD_none] at heq
        omega
      | some w =>
        rw [hk2] at heq
        simp only [Option.getD_some] at heq
        subst heq
        exact assocGet_enumMap_inj (sessionKeysOf_nodup (v1Games dp xs)) hk2 hv
    have hA := pureLoad_rounds_filter_key
      (enumMap (playerNamesOf (v1Games dp xs)) 0)
      (enumMap (sessionKeysOf (v1Games dp xs)) 0) (sessionKeyOf g) hinj
      (v1Games dp xs) [] 0 0
    rw [← hsid, hA]
    have hlen := congrArg List.length hA
    simp only [List.length_map, List.length_range'] at hlen
    rw [hlen]
    simp [assocGet]
  · push_neg at hex
    rw [pureLoad_rounds_filter_none _ _ sid (v1Games dp xs) [] 0 0 hex]
    simp

theorem c7_witness :
    (((v1Import dpTriv noFaults (.arr [rawBobAlice]) preW).2.rounds.filter
        (fun rr => rr.session_id == 1)).map (fun rr => rr.round_number)) = [1] := by
  rw [c7_round_numbers dpTriv [rawBobAlice] preW 1 (by simp)]
  rfl

/-! ### Claim C8 -/

/-- C8 counterexample: part_001 coerces a non-array `games` field to the
empty list and answers the `ok` short-circuit response with HTTP status 200
— it is not a client-fault rejection. -/
theorem c8_counterexample :
    (v1Import dpTriv noFaults .nonArray preW).1.statusOf = 200 ∧
    (v1Import dpTriv noFaults .nonArray preW).1.statusOf ≠ 400 ∧
    (v1Import dpTriv noFaults .nonArray preW).1 = .okEmpty :=
  ⟨rfl, by decide, rfl⟩

/-- C8 (amended): for a valid-JSON body whose `games` field is not an array,
the part_000 handler rejects before normalization with the 400 client-fault
response `Body must be { games: [...] }` and the store is untouched, while
the part_001 handler instead coerces the field to an empty list and answers
its 200 `ok` short-circuit — in both handlers the store is not mutated and
normalization is never reached. -/
theorem c8_nonarray_amended (dp : String → Option (Int × Nat × Nat)) (f : Faults)
    (pre : Store) :
    (v0Import dp f .nonArray pre =
        (.badRequest "Body must be \x7b games: [...] \x7d", pre) ∧
      (v0Import dp f .nonArray pre).1.statusOf = 400) ∧
    (v1Import dp f .nonArray pre = (.okEmpty, pre) ∧
      (v1Import dp f .nonArray pre).1.statusOf = 200) :=
  ⟨⟨rfl, rfl⟩, ⟨rfl, rfl⟩⟩

/-! ### Claim C9 -/

/-- C9: the part_001 pipeline is deterministic, and on a fault-free backend
its outcome does not even depend on the pre-import store: the response is a
function of the request alone; for a non-empty request the entire
(response, store) result coincides for any two initial stores, the player
table is exactly the derived name list in sorted order, and the session
table is exactly the derived key list in sorted order. -/
theorem c9_determinism (dp : String → Option (Int × Nat × Nat)) (xs : List RawGame)
    (pre1 pre2 : Store) :
    ((v1Import dp noFaults (.arr xs) pre1).1 = (v1Import dp noFaults (.arr xs) pre2).1) ∧
    (xs ≠ [] → v1Import dp noFaults (.arr xs) pre1 = v1Import dp noFaults (.arr xs) pre2) ∧
    (xs ≠ [] →
      ((v1Import dp noFaults (.arr xs) pre1).2.players.map (fun p => p.name) =
          playerNamesOf (v1Games dp xs) ∧
        (playerNamesOf (v1Games dp xs)).Sorted nameLE ∧
        (v1Import dp noFaults (.arr xs) pre1).2.sessions =
          sessionRowsOf (sessionKeysOf (v1Games dp xs)) 0 ∧
        (sessionKeysOf (v1Games dp xs)).Sorted nameLE)) := by
  by_cases h : xs = []
  · subst h
    exact ⟨rfl, fun hc => absurd rfl hc, fun hc => absurd rfl hc⟩
  · have h1 := v1Import_noFaults dp xs pre1 h
    have h2 := v1Import_noFaults dp xs pre2 h
    refine ⟨by rw [h1, h2], fun _ => by rw [h1, h2], fun _ => ?_⟩
    rw [h1]
    exact ⟨by simp [loadedStore, playerRowsOf_names], playerNamesOf_sorted _,
      by simp [loadedStore], sessionKeysOf_sorted _⟩

theorem c9_witness :
    v1Import dpTriv noFaults (.arr [rawBobAlice]) emptyStore =
      v1Import dpTriv noFaults (.arr [rawBobAlice]) preW :=
  (c9_determinism dpTriv [rawBobAlice] emptyStore preW).2.1 (by simp)

/-! ### Claim C10 -/

/-- A record whose date field is the shape-valid but non-calendar string
`2026-13-99`. -/
def rawBadDate : RawGame :=
  { date := atomStr "2026-13-99", player := atomStr "A", opponent := atomStr "B",
    my_score := atomNum 1, opp_score := atomNum 2 }

/-- C10: any date string matching the `\d{4}-\d{2}-\d{2}` shape is accepted
unchanged without calendar validation by both normalisers — whatever the
host date parser would say (`dp` is arbitrary and never consulted).  In
particular, a record dated `2026-13-99` (month 13, day 99) survives
normalization, and that string becomes the session key
`2026-13-99|Unknown`. -/
theorem c10_date_shape (dp : String → Option (Int × Nat × Nat)) :
    normDate dp (atomStr "2026-13-99") = "2026-13-99" ∧
    toISODate dp (atomStr "2026-13-99") = some "2026-13-99" ∧
    (normRecOf dp rawBadDate).isSome = true ∧
    sessionKeysOf (v1Games dp [rawBadDate]) = ["2026-13-99|Unknown"] :=
  ⟨rfl, rfl, rfl, rfl⟩

end TCS
